import Mathlib

/-!
Verification of the fireflow workflow runner.

This file gives a shallow embedding, in Lean 4, of the parts of the
fireflow code base the specification claims talk about:

* the content-addressed object store (in-memory and on-disk), keyed by
  SHA-256; SHA-256 itself is implemented concretely (FIPS 180-4) over byte
  lists, since the Python code delegates to hashlib;
* the per-job process engine: the step machine driven by run_calcjob,
  with remote-step effects abstracted into an oracle, and persistence
  modelled as a trace of row writes;
* the transfer-size policy of copy_to_remote and the retrieval logic of
  copy_from_remote;
* the keyword-argument surface of Storage.iter_rows / ObjectStore
  add_from_bytes, needed to settle claims about call sites that pass
  keywords the signatures do not accept (Python raises TypeError there);
* the ingestion path save_from_dict and its upload_paths rewriting;
* the post-parse dispatch of filter_from_string, over the parse trees
  produced by the pyparsing grammar, together with evaluation of the
  resulting predicates through iter_rows / count_rows.

Machine integers do not occur (Python ints are unbounded); SHA-256 word
arithmetic is Nat with explicit reduction modulo 2^32.  Fallible code
returns Option or an explicit error component.
-/

namespace Fireflow

/-! ## SHA-256 (model of hashlib.sha256 : bytes to lowercase hex digest) -/

namespace Sha256

/-- Bytes are modelled as natural numbers below 256. -/
abbrev Bytes := List Nat

def M32 : Nat := 4294967296

def add32 (a b : Nat) : Nat := (a + b) % M32

def rotr (n x : Nat) : Nat := ((x >>> n) ||| (x <<< (32 - n))) % M32

def shr (n x : Nat) : Nat := x >>> n

def not32 (x : Nat) : Nat := x ^^^ 0xFFFFFFFF

def bigSigma0 (x : Nat) : Nat := (rotr 2 x) ^^^ (rotr 13 x) ^^^ (rotr 22 x)

def bigSigma1 (x : Nat) : Nat := (rotr 6 x) ^^^ (rotr 11 x) ^^^ (rotr 25 x)

def smallSigma0 (x : Nat) : Nat := (rotr 7 x) ^^^ (rotr 18 x) ^^^ (shr 3 x)

def smallSigma1 (x : Nat) : Nat := (rotr 17 x) ^^^ (rotr 19 x) ^^^ (shr 10 x)

def ch (x y z : Nat) : Nat := (x &&& y) ^^^ ((not32 x) &&& z)

def maj (x y z : Nat) : Nat := (x &&& y) ^^^ (x &&& z) ^^^ (y &&& z)

def K : List Nat := [
  1116352408, 1899447441, 3049323471, 3921009573, 961987163, 1508970993,
  2453635748, 2870763221, 3624381080, 310598401, 607225278, 1426881987,
  1925078388, 2162078206, 2614888103, 3248222580, 3835390401, 4022224774,
  264347078, 604807628, 770255983, 1249150122, 1555081692, 1996064986,
  2554220882, 2821834349, 2952996808, 3210313671, 3336571891, 3584528711,
  113926993, 338241895, 666307205, 773529912, 1294757372, 1396182291,
  1695183700, 1986661051, 2177026350, 2456956037, 2730485921, 2820302411,
  3259730800, 3345764771, 3516065817, 3600352804, 4094571909, 275423344,
  430227734, 506948616, 659060556, 883997877, 958139571, 1322822218,
  1537002063, 1747873779, 1955562222, 2024104815, 2227730452, 2361852424,
  2428436474, 2756734187, 3204031479, 3329325298]

def H0 : List Nat := [
  1779033703, 3144134277, 1013904242, 2773480762, 1359893119, 2600822924,
  528734635, 1541459225]

def toBytesBE (n x : Nat) : List Nat :=
  (List.range n).map (fun i => (x >>> (8 * (n - 1 - i))) % 256)

def padMessage (msg : Bytes) : Bytes :=
  let bitLen := msg.length * 8
  let padZeros := (119 - msg.length % 64) % 64
  msg ++ [0x80] ++ List.replicate padZeros 0 ++ toBytesBE 8 bitLen

def chunkAux : Nat → Bytes → List Bytes
  | 0, _ => []
  | _, [] => []
  | fuel + 1, l => l.take 64 :: chunkAux fuel (l.drop 64)

def chunks64 (l : Bytes) : List Bytes := chunkAux (l.length + 1) l

def toWords : Bytes → List Nat
  | b0 :: b1 :: b2 :: b3 :: rest =>
      (b0 * 16777216 + b1 * 65536 + b2 * 256 + b3) :: toWords rest
  | _ => []

def extendSchedule (w16 : List Nat) : List Nat :=
  (List.range 48).foldl
    (fun w _ =>
      let n := w.length
      let s0 := smallSigma0 (w.getD (n - 15) 0)
      let s1 := smallSigma1 (w.getD (n - 2) 0)
      w ++ [add32 (add32 (w.getD (n - 16) 0) s0) (add32 (w.getD (n - 7) 0) s1)])
    w16

def round64 (st : List Nat) (kw : Nat × Nat) : List Nat :=
  match st with
  | [a, b, c, d, e, f, g, hh] =>
    let t1 := add32 hh (add32 (bigSigma1 e) (add32 (ch e f g) (add32 kw.1 kw.2)))
    let t2 := add32 (bigSigma0 a) (maj a b c)
    [add32 t1 t2, a, b, c, add32 d t1, e, f, g]
  | other => other

def compressBlock (h : List Nat) (block : Bytes) : List Nat :=
  let w := extendSchedule (toWords block)
  let st := (K.zip w).foldl round64 h
  (h.zip st).map (fun p => add32 p.1 p.2)

def sha256words (msg : Bytes) : List Nat :=
  (chunks64 (padMessage msg)).foldl compressBlock H0

def hexChars : List Char := "0123456789abcdef".toList

def wordToHex (w : Nat) : List Char :=
  (List.range 8).map (fun i => hexChars.getD ((w >>> (4 * (7 - i))) % 16) '0')

/-- The lowercase hexadecimal SHA-256 digest of a byte list, as
hashlib.sha256 with hexdigest produces it. -/
def sha256hex (msg : Bytes) : String :=
  String.mk ((sha256words msg).map wordToHex).flatten

end Sha256

export Sha256 (Bytes sha256hex)

/-! ## Object store (src/fireflow/object_store.py)

The in-memory store is a Python dict from hex key to bytes, modelled as an
association list (first match wins, like dict lookup; keys are unique by
construction).  The on-disk store keeps one file per key under its root
directory; the filesystem is likewise an association list from path to
content, and each write additionally reports the trace of filesystem
operations it performed, so that atomicity claims can be stated. -/

/-- An InMemoryObjectStore holds a dict from SHA-256 hex key to content
(field `_store` in the Python class). -/
structure InMemoryObjectStore where
  store : List (String × Bytes)
deriving DecidableEq

namespace InMemoryObjectStore

/-- Model of InMemoryObjectStore.add_from_bytes: hash, insert when the key
is absent, and return the key together with the updated store. -/
def add_from_bytes (s : InMemoryObjectStore) (obj : Bytes) : String × InMemoryObjectStore :=
  let sha256 := sha256hex obj
  if (s.store.lookup sha256).isSome then (sha256, s)
  else (sha256, ⟨(sha256, obj) :: s.store⟩)

/-- Model of InMemoryObjectStore.add_from_io: read the whole stream (given
as its chunk list) and defer to add_from_bytes. -/
def add_from_io (s : InMemoryObjectStore) (chunks : List Bytes) : String × InMemoryObjectStore :=
  s.add_from_bytes chunks.flatten

/-- Membership test (the Python `in` operator / `__contains__`). -/
def contains (s : InMemoryObjectStore) (k : String) : Bool :=
  (s.store.lookup k).isSome

/-- Model of get_size; none models the KeyError raised for an absent key. -/
def get_size (s : InMemoryObjectStore) (k : String) : Option Nat :=
  (s.store.lookup k).map List.length

/-- Model of `open` (returns the stored bytes; none models KeyError). -/
def open_read (s : InMemoryObjectStore) (k : String) : Option Bytes :=
  s.store.lookup k

/-- A store state is well formed when every committed entry is stored
under the hash of its content (the only way the public API inserts). -/
def WF (s : InMemoryObjectStore) : Prop :=
  ∀ k v, s.store.lookup k = some v → k = sha256hex v

end InMemoryObjectStore

/-- A filesystem snapshot: a map from absolute path to file content. -/
structure FileSystem where
  files : List (String × Bytes)
deriving DecidableEq

/-- Filesystem operations performed by the on-disk store, as the Python
code issues them: streaming writes to an anonymous temporary file, an
unlink of the temporary file, a rename of the temporary file into the
store, or a direct Path.write_bytes to a final path. -/
inductive FsOp
  | writeTempChunk (chunk : Bytes)
  | unlinkTemp
  | renameTempTo (path : String)
  | writeFileDirect (path : String) (content : Bytes)
deriving DecidableEq

/-- True for the one operation that writes directly to a final path
without going through the temporary file. -/
def FsOp.publishesDirect : FsOp → Bool
  | .writeFileDirect _ _ => true
  | _ => false

/-- Interpreter state for a trace of filesystem operations: the visible
files plus the content accumulated in the temporary file. -/
structure FsState where
  files : List (String × Bytes)
  temp : Bytes
deriving DecidableEq

def applyOp (st : FsState) : FsOp → FsState
  | .writeTempChunk c => { st with temp := st.temp ++ c }
  | .unlinkTemp => { st with temp := [] }
  | .renameTempTo p => { files := (p, st.temp) :: st.files, temp := [] }
  | .writeFileDirect p c => { st with files := (p, c) :: st.files }

def applyOps (st : FsState) (ops : List FsOp) : FsState :=
  ops.foldl applyOp st

/-- A FileObjectStore is identified by its root directory. -/
structure FileObjectStore where
  root : String
deriving DecidableEq

namespace FileObjectStore

/-- Path of the file backing a key: root/<hex>. -/
def keyPath (s : FileObjectStore) (k : String) : String := s.root ++ "/" ++ k

/-- Model of FileObjectStore.add_from_bytes.  The Python method hashes the
bytes in memory and then, when root/<hex> does not already exist, calls
Path.write_bytes directly on the destination path (no temporary file);
the returned trace records exactly the operations issued. -/
def add_from_bytes (s : FileObjectStore) (fs : FileSystem) (obj : Bytes) :
    String × FileSystem × List FsOp :=
  let sha256 := sha256hex obj
  let path := s.keyPath sha256
  if (fs.files.lookup path).isSome then (sha256, fs, [])
  else (sha256, ⟨(path, obj) :: fs.files⟩, [.writeFileDirect path obj])

/-- Model of FileObjectStore.add_from_io.  The stream is given as its
chunk list; the Python method writes every chunk to a named temporary file
while hashing, and on EOF either unlinks the temporary file (destination
already present) or renames it onto root/<hex>. -/
def add_from_io (s : FileObjectStore) (fs : FileSystem) (chunks : List Bytes) :
    String × FileSystem × List FsOp :=
  let content := chunks.flatten
  let sha256 := sha256hex content
  let path := s.keyPath sha256
  let tempOps := chunks.map FsOp.writeTempChunk
  if (fs.files.lookup path).isSome then
    (sha256, fs, tempOps ++ [.unlinkTemp])
  else
    (sha256, ⟨(path, content) :: fs.files⟩, tempOps ++ [.renameTempTo path])

/-- Membership test: the key file exists under the root. -/
def contains (s : FileObjectStore) (fs : FileSystem) (k : String) : Bool :=
  (fs.files.lookup (s.keyPath k)).isSome

/-- Model of get_size (stat on the key file; none models KeyError). -/
def get_size (s : FileObjectStore) (fs : FileSystem) (k : String) : Option Nat :=
  (fs.files.lookup (s.keyPath k)).map List.length

/-- Model of `open` (read the key file; none models KeyError). -/
def open_read (s : FileObjectStore) (fs : FileSystem) (k : String) : Option Bytes :=
  fs.files.lookup (s.keyPath k)

/-- A filesystem is a well-formed store for root when every file below
root sits at the path named by the hash of its content. -/
def WF (s : FileObjectStore) (fs : FileSystem) : Prop :=
  ∀ k v, fs.files.lookup (s.keyPath k) = some v → k = sha256hex v

end FileObjectStore

/-! ## Process engine (src/fireflow/process.py)

The Processing row itself lives in fireflow/orm.py, which is not among
the provided sources; its fields are modelled from the spec (section 3):
step, state, job_id, exception, retrieved_paths, with an integer pk.
The engine logic below (run_step, run_calcjob, run_multiple_calcjobs) is
translated from process.py.  The remote work done by each step
(copy_to_remote, submit_on_remote, poll_until_finished, copy_from_remote)
is abstracted into an oracle giving, per step, either an exception
(kind and message) or a successful outcome with its effect on the row
(submit records job_id, retrieval records retrieved_paths).  Persistence
(storage._update_row) is modelled as a trace of row snapshots. -/

/-- Step values of the Processing row.  Modelled from the spec: step is an
enum over created, uploading, submitting, running, retrieving, finalised
(orm.py is not among the sources). -/
inductive Step
  | created
  | uploading
  | submitting
  | running
  | retrieving
  | finalised
deriving DecidableEq

/-- Distance from the start of the step machine, used to phrase
"all steps before the failing one succeed". -/
def Step.rank : Step → Nat
  | .created => 0
  | .uploading => 1
  | .submitting => 2
  | .running => 3
  | .retrieving => 4
  | .finalised => 5

/-- State values of the Processing row.  Modelled from the spec: state is
one of playing, paused, finished, excepted. -/
inductive PState
  | playing
  | paused
  | finished
  | excepted
deriving DecidableEq

/-- The Processing row.  Modelled from the spec (section 3): execution
state for exactly one CalcJob. -/
structure Process where
  pk : Int
  step : Step
  state : PState
  job_id : Option String
  exception : Option String
  retrieved_paths : List (String × Option String)
deriving DecidableEq

/-- Kind and message of a raised Python exception; the engine persists it
as the string kind ++ ": " ++ message. -/
structure ExcInfo where
  kind : String
  msg : String
deriving DecidableEq

/-- Effect of a successful step action on the Processing row: submit sets
job_id, retrieval sets retrieved_paths, the other steps set nothing. -/
structure StepEffect where
  new_job_id : Option String := none
  new_retrieved_paths : Option (List (String × Option String)) := none
deriving DecidableEq

/-- Outcome oracle for the remote work of each step: either the step
action raises (error) or it completes with an effect on the row. -/
def Oracle := Step → Except ExcInfo StepEffect

def applyEffect (eff : StepEffect) (p : Process) : Process :=
  let p1 := match eff.new_job_id with
    | none => p
    | some j => { p with job_id := some j }
  match eff.new_retrieved_paths with
  | none => p1
  | some r => { p1 with retrieved_paths := r }

/-- Run one step action: on success advance the step field to next, on
failure leave the row as it was when the exception escaped. -/
def act (o : Oracle) (s next : Step) (p : Process) : Process × Option ExcInfo :=
  match o s with
  | .error e => (p, some e)
  | .ok eff => ({ applyEffect eff p with step := next }, none)

/-- Model of run_step.  In the source, step "created" falls through (plain
`if`, not elif) into the "uploading" branch of the same call, so a created
process first records step uploading and then runs the upload action; the
remaining branches are an if/elif chain, and any other step value raises
ValueError. -/
def run_step (o : Oracle) (p : Process) : Process × Option ExcInfo :=
  let p' := if p.step = Step.created then { p with step := Step.uploading } else p
  match p'.step with
  | .uploading => act o .uploading .submitting p'
  | .submitting => act o .submitting .running p'
  | .running => act o .running .retrieving p'
  | .retrieving => act o .retrieving .finalised p'
  | _ => (p', some ⟨"ValueError", "Unknown step name"⟩)

/-- Loop body of run_calcjob: while step is not finalised, run one step;
on an exception set state excepted, record kind ++ ": " ++ message in the
exception field, persist, and stop; on success persist and continue.  The
returned list is the trace of rows passed to storage._update_row.  Fuel
only guards termination; 6 units always suffice since each successful
step strictly advances the step field. -/
def run_calcjob_loop (o : Oracle) : Nat → Process → List Process → Process × List Process
  | 0, p, ws => (p, ws)
  | fuel + 1, p, ws =>
    if p.step = Step.finalised then (p, ws)
    else
      match run_step o p with
      | (p', some e) =>
          let p2 := { p' with state := PState.excepted,
                              exception := some (e.kind ++ ": " ++ e.msg) }
          (p2, ws ++ [p2])
      | (p', none) => run_calcjob_loop o fuel p' (ws ++ [p'])

/-- Model of run_calcjob: run the loop, then, when the loop left the step
at finalised, flip state to finished and persist once more. -/
def run_calcjob (o : Oracle) (p : Process) : Process × List Process :=
  let r := run_calcjob_loop o 6 p []
  if r.1.step = Step.finalised then
    let p2 := { r.1 with state := PState.finished }
    (p2, r.2 ++ [p2])
  else r

/-- Model of run_multiple_calcjobs: asyncio.gather over independent
per-job tasks, each catching its own exceptions; every job runs with its
own oracle and its own row. -/
def run_multiple_calcjobs (jobs : List (Oracle × Process)) : List (Process × List Process) :=
  jobs.map (fun j => run_calcjob j.1 j.2)

/-! ## Transfer policy and retrieval (copy_to_remote / copy_from_remote)

copy_to_remote uploads each input file with simple_upload when its size is
at most small_file_size_mb * 1024 * 1024 bytes and with the external
(signed-URL staged) path otherwise.  copy_from_remote enumerates glob
matches over the remote job directory; the per-match handling and the
downloading decision are modelled below.  The remote filesystem answers
(file type, checksum, size, and the bytes a simple_download would return)
are carried on the match records. -/

/-- Constant Code.script_filename.  Modelled from the spec: the script
filename is the fixed constant "job.sh" (orm.py, which defines Code, is
not among the sources). -/
def script_filename : String := "job.sh"

/-- How a single file is transferred. -/
inductive TransferMethod
  | simple
  | staged
deriving DecidableEq

/-- Upload policy of copy_to_remote for a file of known size: simple when
size is at most small_file_size_mb * 1024 * 1024, staged otherwise. -/
def upload_transfer (file_size small_file_size_mb : Nat) : TransferMethod :=
  if file_size ≤ small_file_size_mb * 1024 * 1024 then .simple else .staged

/-- Mirror of the download-size condition of copy_from_remote:
vsubpath.size is not None and vsubpath.size is at most
small_file_size_mb * 1024 * 1024. -/
def sizeWithin (size : Option Nat) (small_file_size_mb : Nat) : Bool :=
  match size with
  | some sz => sz ≤ small_file_size_mb * 1024 * 1024
  | none => false

/-- File types as reported by the remote ls (see _remote_path.py); `dash`
is a regular file. -/
inductive FType
  | b
  | c
  | d
  | l
  | s
  | p
  | dash
deriving DecidableEq

/-- What copy_from_remote does with one glob match. -/
inductive RetrieveAction
  | skipScript
  | skipSymlink
  | recordDir
  | recordExisting (key : String)
  | simpleDownload
  | stagedDownload
  | raiseNotImplemented
  | noAction
deriving DecidableEq

/-- Decision taken by copy_from_remote for one glob match, following the
branch order of the source: a path equal to the script filename is
skipped; then symlinks are skipped; then directories are recorded; for a
regular file the remote checksum decides (already in store: record the
key), else a small enough file of known size is simple-downloaded and any
other raises NotImplementedError (the staged download branch is commented
out in the source, so stagedDownload is never produced); other file types
fall through with no action. -/
def retrieve_action (save_path : String) (ftype : FType) (checksum : String)
    (inStore : Bool) (size : Option Nat) (small_file_size_mb : Nat) : RetrieveAction :=
  if save_path = script_filename then .skipScript
  else if ftype = FType.l then .skipSymlink
  else if ftype = FType.d then .recordDir
  else if ftype = FType.dash then
    if inStore then .recordExisting checksum
    else if sizeWithin size small_file_size_mb then .simpleDownload
    else .raiseNotImplemented
  else .noAction

/-- One glob match produced by vglob over the remote job directory,
together with the remote answers the code would obtain for it:
save_path is the path relative to the job directory, checksum is what
client.checksum returns, content is what simple_download would yield. -/
structure RemoteEntry where
  save_path : String
  ftype : FType
  checksum : String
  content : Bytes
  size : Option Nat
deriving DecidableEq

/-- Python dict assignment paths[k] = v on an association list: replace
the first binding of k, else append. -/
def upsert : List (String × α) → String → α → List (String × α)
  | [], k, v => [(k, v)]
  | (k', v') :: rest, k, v =>
      if k' = k then (k, v) :: rest else (k', v') :: upsert rest k v

/-- Accumulator of the retrieval loop: the paths dict being built, the
object store being written to, and the save_paths for which
simple_download was actually called. -/
structure RetrieveAcc where
  paths : List (String × Option String)
  ostore : InMemoryObjectStore
  downloads : List String
deriving DecidableEq

/-- Handling of one glob match inside copy_from_remote, threading the
accumulator; the Option ExcInfo component models an exception escaping
(checksum mismatch, or the unimplemented big-file download).  On the
checksum-mismatch path the store has already been modified by
add_from_bytes before the raise. -/
def process_entry (thr : Nat) (e : RemoteEntry) (acc : RetrieveAcc) :
    RetrieveAcc × Option ExcInfo :=
  if e.save_path = script_filename then (acc, none)
  else if e.ftype = FType.l then (acc, none)
  else if e.ftype = FType.d then
    ({ acc with paths := upsert acc.paths e.save_path none }, none)
  else if e.ftype = FType.dash then
    if acc.ostore.contains e.checksum then
      ({ acc with paths := upsert acc.paths e.save_path (some e.checksum) }, none)
    else if sizeWithin e.size thr then
      let r := acc.ostore.add_from_bytes e.content
      if r.1 ≠ e.checksum then
        ({ acc with ostore := r.2, downloads := acc.downloads ++ [e.save_path] },
         some ⟨"RuntimeError", "checksum mismatch for downloaded file"⟩)
      else
        ({ paths := upsert acc.paths e.save_path (some r.1),
           ostore := r.2,
           downloads := acc.downloads ++ [e.save_path] }, none)
    else (acc, some ⟨"NotImplementedError", "big file download"⟩)
  else (acc, none)

/-- The retrieval loop over all glob matches, stopping at the first
escaping exception. -/
def copy_from_remote_loop (thr : Nat) : List RemoteEntry → RetrieveAcc → RetrieveAcc × Option ExcInfo
  | [], acc => (acc, none)
  | e :: rest, acc =>
      match process_entry thr e acc with
      | (acc', none) => copy_from_remote_loop thr rest acc'
      | (acc', some err) => (acc', some err)

/-- Model of copy_from_remote: run the loop from an empty paths dict; only
when no exception escaped is calc.process.retrieved_paths assigned (the
assignment is the last line of the function). -/
def copy_from_remote (thr : Nat) (entries : List RemoteEntry)
    (ostore : InMemoryObjectStore) (proc : Process) :
    (Process × InMemoryObjectStore × List String) × Option ExcInfo :=
  match copy_from_remote_loop thr entries ⟨[], ostore, []⟩ with
  | (acc, none) => (({ proc with retrieved_paths := acc.paths }, acc.ostore, acc.downloads), none)
  | (acc, some err) => ((proc, acc.ostore, acc.downloads), some err)

/-! ## Storage queries (src/fireflow/storage.py)

iter_rows builds SELECT ... ORDER BY pk [LIMIT/OFFSET] [WHERE ...]; in SQL
the WHERE clause applies before ordering and pagination, and the filters
sequence is joined by AND.  count_rows counts the same subquery without
pagination.  A Python call site is modelled together with its keyword
names, because Python raises TypeError when a call passes a keyword
parameter the signature does not declare. -/

/-- Result rows of iter_rows: filter (filters joined by AND), order by pk,
then paginate with limit page_size and offset (page - 1) * page_size. -/
def iter_rows (rows : List α) (pk : α → Int) (page_size : Option Nat) (page : Nat)
    (filters : List (α → Bool)) : List α :=
  let filtered := rows.filter (fun r => filters.all (fun f => f r))
  let sorted := filtered.mergeSort (fun a b => pk a ≤ pk b)
  match page_size with
  | none => sorted
  | some n => (sorted.drop ((page - 1) * n)).take n

/-- Result of count_rows: the size of the filtered subquery. -/
def count_rows (rows : List α) (filters : List (α → Bool)) : Nat :=
  (rows.filter (fun r => filters.all (fun f => f r))).length

/-- Keyword parameters declared by Storage.iter_rows in storage.py:
page_size, page, filters. -/
def iter_rows_kwparams : List String := ["page_size", "page", "filters"]

/-- Keyword arguments that run_unfinished_calcjobs in process.py passes to
storage.iter_rows: page_size and where. -/
def run_unfinished_iter_rows_kwargs : List String := ["page_size", "where"]

/-- Python accepts a call iff every keyword argument passed is among the
declared keyword parameters (else it raises TypeError). -/
def kwargs_accepted (accepted passed : List String) : Bool :=
  passed.all accepted.contains

/-- A Python-level error (its class name and message). -/
structure PyError where
  kind : String
  msg : String
deriving DecidableEq

/-- Model of run_unfinished_calcjobs: it calls
storage.iter_rows(Processing, page_size=limit, where=[state == playing])
and then gathers run_calcjob over the returned rows.  The embedded
keyword check reflects that iter_rows declares filters, not where. -/
def run_unfinished_calcjobs (o : Process → Oracle) (rows : List Process) (limit : Option Nat) :
    Except PyError (List (Process × List Process)) :=
  if kwargs_accepted iter_rows_kwparams run_unfinished_iter_rows_kwargs then
    let running := iter_rows rows Process.pk limit 1 [fun p => p.state == PState.playing]
    .ok (run_multiple_calcjobs (running.map (fun p => (o p, p))))
  else
    .error ⟨"TypeError", "iter_rows() got an unexpected keyword argument: where"⟩

/-! ## Ingestion (Storage.save_from_dict and _convert_upload_paths)

The objects mapping is processed first: a content entry is encoded and
passed to self.objects.add_from_bytes with the keyword argument ext,
which the fireflow ObjectStore.add_from_bytes signature does not declare
(the parameter existed only in the earlier firecrest_wflow store); a path
entry goes through add_from_path, which passes no keyword.  Afterwards
clients, codes and calcjobs are saved inside one nested transaction, with
upload_paths rewritten by _convert_upload_paths.  The entity rows are
modelled from the spec (orm.py is not among the sources): rows carry a
pk, a label and their foreign key. -/

/-- One value of an objects mapping entry: inline content, a source path,
or an invalid entry with neither. -/
inductive ObjSpec
  | content (text : String) (encoding : String) (extension : String)
  | filePath (p : String)
  | invalid
deriving DecidableEq

/-- UTF-8 encoding of a content string (model of str.encode). -/
def encodeText (t : String) : Bytes :=
  t.toUTF8.toList.map UInt8.toNat

/-- Keyword parameters declared by ObjectStore.add_from_bytes in
fireflow/object_store.py: none (the single parameter obj is passed
positionally). -/
def add_from_bytes_kwparams : List String := []

/-- Keyword arguments passed by save_from_dict to add_from_bytes for a
content object: ext. -/
def save_from_dict_add_from_bytes_kwargs : List String := ["ext"]

/-- The objects phase of save_from_dict: walk the objects mapping,
pushing each blob into the object store and building the label-to-key
mapping; a content entry hits the undeclared keyword ext. -/
def save_objects_loop (rf : String → Bytes) :
    List (String × ObjSpec) → InMemoryObjectStore → List (String × String) →
    Except PyError (InMemoryObjectStore × List (String × String))
  | [], store, l2k => .ok (store, l2k)
  | (label, spec) :: rest, store, l2k =>
    match spec with
    | .content text _enc _ext =>
        if kwargs_accepted add_from_bytes_kwparams save_from_dict_add_from_bytes_kwargs then
          let r := store.add_from_bytes (encodeText text)
          save_objects_loop rf rest r.2 (l2k ++ [(label, r.1)])
        else
          .error ⟨"TypeError", "add_from_bytes() got an unexpected keyword argument: ext"⟩
    | .filePath p =>
        let r := store.add_from_bytes (rf p)
        save_objects_loop rf rest r.2 (l2k ++ [(label, r.1)])
    | .invalid => .error ⟨"ValueError", "Expected either content or path for object"⟩

/-- One value of an upload_paths mapping: null (make a directory), a
reference by object label, a reference by object key, or anything else
(rejected). -/
inductive UploadPathValue
  | null
  | byLabel (label : String)
  | byKey (key : String)
  | other
deriving DecidableEq

/-- First loop of _convert_upload_paths: build new_upload_paths, skipping
null values, resolving label references through the label-to-key map and
taking key references as given. -/
def convert_upload_paths_loop (label_to_key : List (String × String)) :
    List (String × UploadPathValue) → Except PyError (List (String × String))
  | [] => .ok []
  | (k, v) :: rest =>
    match v with
    | .null => convert_upload_paths_loop label_to_key rest
    | .byLabel lab =>
        match label_to_key.lookup lab with
        | none => .error ⟨"ValueError", "label not found"⟩
        | some key => (convert_upload_paths_loop label_to_key rest).map (fun l => (k, key) :: l)
    | .byKey key => (convert_upload_paths_loop label_to_key rest).map (fun l => (k, key) :: l)
    | .other => .error ⟨"ValueError", "Expected either label or key"⟩

/-- Model of _convert_upload_paths: the rewriting loop followed by the
validation loop checking every resolved key is present in the store. -/
def convert_upload_paths (store : InMemoryObjectStore) (label_to_key : List (String × String))
    (upload_paths : List (String × UploadPathValue)) : Except PyError (List (String × String)) :=
  match convert_upload_paths_loop label_to_key upload_paths with
  | .error e => .error e
  | .ok new_paths =>
      if new_paths.all (fun kv => store.contains kv.2) then .ok new_paths
      else .error ⟨"KeyError", "Key not found in storage"⟩

/-- Client ingestion record (label only; the connection fields do not
matter to the claims). -/
structure ClientData where
  label : String
deriving DecidableEq

/-- Code ingestion record. -/
structure CodeData where
  label : String
  client_label : String
  upload_paths : List (String × UploadPathValue)
deriving DecidableEq

/-- CalcJob ingestion record. -/
structure CalcJobData where
  label : String
  code_label : String
  upload_paths : List (String × UploadPathValue)
deriving DecidableEq

/-- The accepted shape of save_from_dict input. -/
structure IngestInput where
  objects : List (String × ObjSpec)
  clients : List ClientData
  codes : List CodeData
  calcjobs : List CalcJobData
deriving DecidableEq

/-- A saved Client row.  Modelled from the spec (entity with pk and unique
label). -/
structure ClientRow where
  pk : Int
  label : String
deriving DecidableEq

/-- A saved Code row.  Modelled from the spec (pk, label, client FK,
rewritten upload_paths). -/
structure CodeRow where
  pk : Int
  label : String
  client_pk : Int
  upload_paths : List (String × String)
deriving DecidableEq

/-- A saved CalcJob row.  Modelled from the spec (pk, label, code FK,
rewritten upload_paths). -/
structure CalcJobRow where
  pk : Int
  label : String
  code_pk : Int
  upload_paths : List (String × String)
deriving DecidableEq

/-- The relational rows visible to ingestion, with the next primary key
the database would assign. -/
structure Db where
  clients : List ClientRow
  codes : List CodeRow
  calcjobs : List CalcJobRow
  next_pk : Int
deriving DecidableEq

def save_clients : Db → List ClientData → Db
  | db, [] => db
  | db, c :: rest =>
      save_clients
        { db with clients := db.clients ++ [⟨db.next_pk, c.label⟩],
                  next_pk := db.next_pk + 1 } rest

def save_codes (store : InMemoryObjectStore) (l2k : List (String × String)) :
    Db → List CodeData → Except PyError Db
  | db, [] => .ok db
  | db, c :: rest =>
      match db.clients.find? (fun r => r.label == c.client_label) with
      | none => .error ⟨"ValueError", "client_label not found"⟩
      | some cl =>
          match convert_upload_paths store l2k c.upload_paths with
          | .error e => .error e
          | .ok ups =>
              save_codes store l2k
                { db with codes := db.codes ++ [⟨db.next_pk, c.label, cl.pk, ups⟩],
                          next_pk := db.next_pk + 1 } rest

def save_calcjobs (store : InMemoryObjectStore) (l2k : List (String × String)) :
    Db → List CalcJobData → Except PyError Db
  | db, [] => .ok db
  | db, c :: rest =>
      match db.codes.find? (fun r => r.label == c.code_label) with
      | none => .error ⟨"ValueError", "code_label not found"⟩
      | some co =>
          match convert_upload_paths store l2k c.upload_paths with
          | .error e => .error e
          | .ok ups =>
              save_calcjobs store l2k
                { db with calcjobs := db.calcjobs ++ [⟨db.next_pk, c.label, co.pk, ups⟩],
                          next_pk := db.next_pk + 1 } rest

/-- Model of Storage.save_from_dict: objects first (their keys feed the
upload_paths rewriting), then clients, codes and calcjobs in one nested
transaction: any error rolls the relational batch back, so an error
returns no partial Db. -/
def save_from_dict (rf : String → Bytes) (store : InMemoryObjectStore) (db : Db)
    (input : IngestInput) : Except PyError (InMemoryObjectStore × Db) :=
  match save_objects_loop rf input.objects store [] with
  | .error e => .error e
  | .ok (store', l2k) =>
      let db1 := save_clients db input.clients
      match save_codes store' l2k db1 input.codes with
      | .error e => .error e
      | .ok db2 =>
          match save_calcjobs store' l2k db2 input.calcjobs with
          | .error e => .error e
          | .ok db3 => .ok (store', db3)

/-! ## Filter strings (src/fireflow/_sql_parse.py)

filter_from_string first runs the pyparsing expression grammar and then
walks the resulting parse tree (a nesting of lists, dicts, strings and
numbers) in a hand-written loop (lines 343-450).  The pyparsing output is
modelled by the PParsed type and the walking loop is translated below;
the grammar itself is an external library and enters only through the
concrete parse trees used in the theorems. -/

/-- A pyparsing parse-tree value as consumed by filter_from_string: a
number, a string token, a group list, or a column reference dict with
keys col and col_tab. -/
inductive PParsed
  | pint (n : Int)
  | pstr (s : String)
  | plist (l : List PParsed)
  | pdict (col : Option String) (col_tab : Option String)

def PParsed.isDict : PParsed → Bool
  | .pdict _ _ => true
  | _ => false

/-- The structured error raised by filter_from_string: the offending
filter string, a user-visible message (default "Could not be read") and a
detail string (default empty). -/
structure FilterStringError where
  filter_string : String
  user : String
  detail : String

/-- Comparison operators that reach the SQL layer. -/
inductive Comparison
  | ceq
  | cne
  | cgt
  | cge
  | clt
  | cle

/-- A typed predicate over one entity, as built by filter_from_string:
column-against-value comparisons, IN / NOT IN, LIKE / NOT LIKE, joined by
AND / OR. -/
inductive Pred
  | cmp (op : Comparison) (col : String) (v : PParsed)
  | isIn (col : String) (v : PParsed)
  | notIn (col : String) (v : PParsed)
  | likeOp (col : String) (v : PParsed)
  | notLikeOp (col : String) (v : PParsed)
  | pand (a b : Pred)
  | por (a b : Pred)

/-- What column resolution sees on the entity class: real column
attributes, and attributes that exist but are not columns (plain
properties; getattr finds them but the InstrumentedAttribute check
rejects them). -/
structure EntityMeta where
  columns : List String
  non_column_attrs : List String

/-- Handling of one comparison triple [column-dict, comparator, value],
mirroring the checks of filter_from_string in order: the item must be a
3-list; its head a dict carrying a col key; a col_tab reference (joined
table) is rejected; the column must resolve on the entity and be a real
column; a dict value is rejected; then the comparator dispatches over
exactly ==, !=, >, >=, <, <=, IN, NOT IN, LIKE, NOT LIKE. -/
def parse_triple (fs : String) (meta : EntityMeta) : PParsed → Except FilterStringError Pred
  | .plist [assign, comparator, value] =>
    match assign with
    | .pdict colOpt tblOpt =>
      match colOpt with
      | none => .error ⟨fs, "Left comparators must be columns", "Expected a col key"⟩
      | some col =>
        match tblOpt with
        | some tbl => .error ⟨fs, "Unknown table: " ++ tbl, ""⟩
        | none =>
          if meta.columns.contains col then
            match value with
            | .pdict (some _) _ =>
                .error ⟨fs, "unknown right comparison", "Got a column for right comparison"⟩
            | .pdict none _ =>
                .error ⟨fs, "unknown right comparison", "Got a dict for a value comparison"⟩
            | v =>
              match comparator with
              | .pstr "==" => .ok (.cmp .ceq col v)
              | .pstr "!=" => .ok (.cmp .cne col v)
              | .pstr ">" => .ok (.cmp .cgt col v)
              | .pstr ">=" => .ok (.cmp .cge col v)
              | .pstr "<" => .ok (.cmp .clt col v)
              | .pstr "<=" => .ok (.cmp .cle col v)
              | .pstr "IN" => .ok (.isIn col v)
              | .plist [.pstr "NOT", .pstr "IN"] => .ok (.notIn col v)
              | .pstr "LIKE" => .ok (.likeOp col v)
              | .plist [.pstr "NOT", .pstr "LIKE"] => .ok (.notLikeOp col v)
              | _ => .error ⟨fs, "Unknown comparator", ""⟩
          else if meta.non_column_attrs.contains col then
            .error ⟨fs, "Unknown column " ++ col ++ " (not a column)",
                    "Attribute " ++ col ++ " is not a InstrumentedAttribute"⟩
          else
            .error ⟨fs, "Unknown column " ++ col, "Attribute " ++ col ++ " not found"⟩
    | _ => .error ⟨fs, "Could not be read", "Expected a dict"⟩
  | _ => .error ⟨fs, "Could not be read", "Expected a list of length 3"⟩

/-- The accumulation loop of filter_from_string: triples are combined
left to right with the connector read between them; a connector other
than AND or OR is rejected. -/
def filter_loop (fs : String) (meta : EntityMeta) :
    List PParsed → Option Pred → Option String → Except FilterStringError (Option Pred)
  | [], comp, _ => .ok comp
  | item :: rest, comp, lastOp =>
    match parse_triple fs meta item with
    | .error e => .error e
    | .ok next =>
      let comp' :=
        match comp, lastOp with
        | some c, some "AND" => Pred.pand c next
        | some c, some "OR" => Pred.por c next
        | _, _ => next
      match rest with
      | [] => .ok (some comp')
      | c :: rest' =>
        match c with
        | .pstr "AND" => filter_loop fs meta rest' (some comp') (some "AND")
        | .pstr "OR" => filter_loop fs meta rest' (some comp') (some "OR")
        | _ => .error ⟨fs, "Unknown operator", ""⟩

/-- Model of filter_from_string after parsing: a bare column dict yields
no filter; an empty list yields no filter; a single triple (head is a
dict and the list has three items) is wrapped; otherwise the list is the
sequence of triples and connectors; a non-list tree is rejected. -/
def filter_from_parsed (fs : String) (meta : EntityMeta) : PParsed → Except FilterStringError (Option Pred)
  | .pdict _ _ => .ok none
  | .plist [] => .ok none
  | .plist (x :: rest) =>
      if x.isDict && rest.length == 2 then filter_loop fs meta [.plist (x :: rest)] none none
      else filter_loop fs meta (x :: rest) none none
  | _ => .error ⟨fs, "Could not be read", "Expected a list"⟩

/-! Evaluation of the built predicates, as the database executes them. -/

/-- SQL LIKE matching: percent matches any run of characters, underscore
one character, letters match ASCII case-insensitively (SQLite default). -/
def likeMatch (p s : List Char) : Bool :=
  match p, s with
  | [], [] => true
  | [], _ :: _ => false
  | '%' :: ps, [] => likeMatch ps []
  | '%' :: ps, ch :: s' => likeMatch ps (ch :: s') || likeMatch ('%' :: ps) s'
  | '_' :: ps, _ :: s' => likeMatch ps s'
  | '_' :: _, [] => false
  | pc :: ps, ch :: s' => (pc.toLower == ch.toLower) && likeMatch ps s'
  | _ :: _, [] => false
termination_by (p.length, s.length)

def sql_like (pattern text : String) : Bool :=
  likeMatch pattern.toList text.toList

/-- Scalar comparison between a column value and a literal; ill-typed
comparisons are false. -/
def evalCmp (op : Comparison) : PParsed → PParsed → Bool
  | .pint a, .pint b =>
      (match op with
       | .ceq => a == b
       | .cne => a != b
       | .cgt => a > b
       | .cge => a ≥ b
       | .clt => a < b
       | .cle => a ≤ b : Bool)
  | .pstr a, .pstr b =>
      (match op with
       | .ceq => a == b
       | .cne => a != b
       | .cgt => decide (b < a)
       | .cge => decide (b ≤ a)
       | .clt => decide (a < b)
       | .cle => decide (a ≤ b) : Bool)
  | _, _ => false

/-- Evaluation of a predicate on one row, given the row's column
values. -/
def evalPred (colVal : String → Option PParsed) : Pred → Bool
  | .cmp op col v =>
      match colVal col with
      | some cv => evalCmp op cv v
      | none => false
  | .isIn col v =>
      match colVal col, v with
      | some cv, .plist vs => vs.any (fun x => evalCmp .ceq cv x)
      | _, _ => false
  | .notIn col v =>
      match colVal col, v with
      | some cv, .plist vs => !(vs.any (fun x => evalCmp .ceq cv x))
      | _, _ => false
  | .likeOp col v =>
      match colVal col, v with
      | some (.pstr s), .pstr pat => sql_like pat s
      | _, _ => false
  | .notLikeOp col v =>
      match colVal col, v with
      | some (.pstr s), .pstr pat => !(sql_like pat s)
      | _, _ => false
  | .pand a b => evalPred colVal a && evalPred colVal b
  | .por a b => evalPred colVal a || evalPred colVal b

/-- Column values of a Client row, for the columns the claims use. -/
def clientColValue (r : ClientRow) : String → Option PParsed
  | "pk" => some (.pint r.pk)
  | "label" => some (.pstr r.label)
  | _ => none

/-- Column metadata of the Client entity.  Modelled from the spec
(section 3 lists the Client attributes; the cached transport handle
client is a runtime property, not a column). -/
def clientMeta : EntityMeta :=
  { columns := ["pk", "label", "client_url", "client_id", "client_secret", "token_uri",
                "machine_name", "work_dir", "fsystem", "small_file_size_mb"],
    non_column_attrs := ["client"] }

/-- The parse tree the pyparsing expression grammar produces for the
filter string  pk > 0 AND label LIKE (quoted) a percent  of the claim:
triples of column dict, comparator token and literal, with the connector
token between them. -/
def exampleFilterParsed : PParsed :=
  .plist [
    .plist [.pdict (some "pk") none, .pstr ">", .pint 0],
    .pstr "AND",
    .plist [.pdict (some "label") none, .pstr "LIKE", .pstr "a%"]]

/-- The predicate filter_from_string builds from the example filter. -/
def examplePred : Pred :=
  .pand (.cmp .cgt "pk" (.pint 0)) (.likeOp "label" (.pstr "a%"))

/-! ## Remaining auxiliary definitions used by concrete instances -/

/-- True iff a string is a 64-character lowercase hexadecimal digest. -/
def isLowerHex64 (s : String) : Bool :=
  s.length == 64 && s.data.all (fun c => Sha256.hexChars.contains c)

/-- An oracle whose step actions all succeed with no row effect. -/
def oracleAllOk : Oracle := fun _ => .ok ⟨none, none⟩

/-- An oracle whose polling step times out, the other steps succeeding. -/
def oracleFailRunning : Oracle := fun s =>
  if s = Step.running then .error ⟨"RuntimeError", "timeout waiting for calcjob to finish"⟩
  else .ok ⟨none, none⟩

/-- A fresh Process row as auto-created on first save: step created, state
playing. -/
def pCreated : Process :=
  ⟨1, Step.created, PState.playing, none, none, []⟩

/-- A Process that excepted on a previous run and was set back to playing
by the caller (the exception field still holds the old message), resuming
at the step that failed. -/
def pReplayed : Process :=
  ⟨1, Step.retrieving, PState.playing, some "77", some "RuntimeError: boom", []⟩

/-! # Theorems -/

/-! ## Digest shape lemmas -/

theorem round64_length (st : List Nat) (hst : st.length = 8) (kw : Nat × Nat) :
    (Sha256.round64 st kw).length = 8 := by
  rcases st with _ | ⟨a, _ | ⟨b, _ | ⟨c, _ | ⟨d, _ | ⟨e, _ | ⟨f, _ | ⟨g, _ | ⟨hh, _ | ⟨i, t⟩⟩⟩⟩⟩⟩⟩⟩⟩ <;>
    simp_all [Sha256.round64]

theorem foldl_round64_length (l : List (Nat × Nat)) (st : List Nat) (h : st.length = 8) :
    (l.foldl Sha256.round64 st).length = 8 := by
  induction l generalizing st with
  | nil => simpa
  | cons kw l ih => exact ih _ (round64_length st h kw)

theorem compressBlock_length (h : List Nat) (b : Bytes) (hl : h.length = 8) :
    (Sha256.compressBlock h b).length = 8 := by
  unfold Sha256.compressBlock
  simp [hl, foldl_round64_length _ _ hl]

theorem foldl_compress_length (bs : List Bytes) (h : List Nat) (hl : h.length = 8) :
    (bs.foldl Sha256.compressBlock h).length = 8 := by
  induction bs generalizing h with
  | nil => simpa
  | cons b bs ih => exact ih _ (compressBlock_length _ _ hl)

theorem sha256words_length (msg : Bytes) : (Sha256.sha256words msg).length = 8 :=
  foldl_compress_length _ Sha256.H0 rfl

theorem hexChars_getD_mem : ∀ n < 16, Sha256.hexChars.contains (Sha256.hexChars.getD n '0') = true := by
  decide

theorem wordToHex_length (w : Nat) : (Sha256.wordToHex w).length = 8 := by
  simp [Sha256.wordToHex]

theorem wordToHex_mem (w : Nat) (c : Char) (hc : c ∈ Sha256.wordToHex w) :
    Sha256.hexChars.contains c = true := by
  simp only [Sha256.wordToHex, List.mem_map, List.mem_range] at hc
  obtain ⟨i, _, rfl⟩ := hc
  exact hexChars_getD_mem _ (Nat.mod_lt _ (by norm_num))

theorem flatten_hex_length (ws : List Nat) :
    ((ws.map Sha256.wordToHex).flatten).length = 8 * ws.length := by
  induction ws with
  | nil => simp
  | cons w ws ih => simp [ih, wordToHex_length]; ring

theorem flatten_hex_mem (ws : List Nat) :
    ((ws.map Sha256.wordToHex).flatten).all (fun c => Sha256.hexChars.contains c) = true := by
  simp only [List.all_eq_true]
  intro c hc
  simp only [List.mem_flatten, List.mem_map] at hc
  obtain ⟨l, ⟨w, _, rfl⟩, hcl⟩ := hc
  exact wordToHex_mem w c hcl

theorem sha256hex_isLowerHex64 (msg : Bytes) : isLowerHex64 (sha256hex msg) = true := by
  unfold isLowerHex64 Sha256.sha256hex
  have h1 := flatten_hex_length (Sha256.sha256words msg)
  simp [String.length, sha256words_length, h1]
  intro a ha x hx
  simpa using wordToHex_mem a x hx

/-! ## Object store lemmas -/

theorem mem_add_from_bytes_fst (s : InMemoryObjectStore) (obj : Bytes) :
    (s.add_from_bytes obj).1 = sha256hex obj := by
  simp only [InMemoryObjectStore.add_from_bytes]
  split <;> rfl

theorem mem_add_from_bytes_contains (s : InMemoryObjectStore) (obj : Bytes) :
    (s.add_from_bytes obj).2.contains (sha256hex obj) = true := by
  simp only [InMemoryObjectStore.add_from_bytes, InMemoryObjectStore.contains]
  split <;> simp_all [List.lookup]

theorem mem_add_from_bytes_open_read (s : InMemoryObjectStore) (obj : Bytes)
    (hinj : ∀ v, s.store.lookup (sha256hex obj) = some v → v = obj) :
    (s.add_from_bytes obj).2.open_read (sha256hex obj) = some obj := by
  simp only [InMemoryObjectStore.add_from_bytes, InMemoryObjectStore.open_read]
  split
  · next h =>
      obtain ⟨v, hv⟩ := Option.isSome_iff_exists.mp h
      rw [hv, hinj v hv]
  · simp [List.lookup]

theorem disk_add_from_bytes_fst (s : FileObjectStore) (fs : FileSystem) (obj : Bytes) :
    (s.add_from_bytes fs obj).1 = sha256hex obj := by
  simp only [FileObjectStore.add_from_bytes]
  split <;> rfl

theorem disk_add_from_bytes_contains (s : FileObjectStore) (fs : FileSystem) (obj : Bytes) :
    s.contains (s.add_from_bytes fs obj).2.1 (sha256hex obj) = true := by
  simp only [FileObjectStore.add_from_bytes, FileObjectStore.contains]
  split <;> simp_all [List.lookup]

theorem disk_add_from_bytes_open_read (s : FileObjectStore) (fs : FileSystem) (obj : Bytes)
    (hinj : ∀ v, fs.files.lookup (s.keyPath (sha256hex obj)) = some v → v = obj) :
    s.open_read (s.add_from_bytes fs obj).2.1 (sha256hex obj) = some obj := by
  simp only [FileObjectStore.add_from_bytes, FileObjectStore.open_read]
  split
  · next h =>
      obtain ⟨v, hv⟩ := Option.isSome_iff_exists.mp h
      rw [hv, hinj v hv]
  · simp [List.lookup]

/-- C3: for every byte string B, on both object store implementations,
add_from_bytes returns the lowercase-hex SHA-256 of B (the first two
conjuncts hold for every store state, so the key is the same on every
call), contains holds on the key afterwards, and reading the object back
yields exactly B.  The two hypotheses say that whatever blob may already
be committed under the hash of B is B itself; this is the code's working
assumption that SHA-256 is collision-free, and it holds vacuously
whenever the key is fresh. -/
theorem c3_object_store_roundtrip
    (B : Bytes) (mem : InMemoryObjectStore) (disk : FileObjectStore) (fs : FileSystem)
    (hmem : ∀ v, mem.store.lookup (sha256hex B) = some v → v = B)
    (hdisk : ∀ v, fs.files.lookup (disk.keyPath (sha256hex B)) = some v → v = B) :
    (mem.add_from_bytes B).1 = sha256hex B ∧
    (disk.add_from_bytes fs B).1 = sha256hex B ∧
    isLowerHex64 (sha256hex B) = true ∧
    (mem.add_from_bytes B).2.contains (sha256hex B) = true ∧
    disk.contains (disk.add_from_bytes fs B).2.1 (sha256hex B) = true ∧
    (mem.add_from_bytes B).2.open_read (sha256hex B) = some B ∧
    disk.open_read (disk.add_from_bytes fs B).2.1 (sha256hex B) = some B :=
  ⟨mem_add_from_bytes_fst mem B,
   disk_add_from_bytes_fst disk fs B,
   sha256hex_isLowerHex64 B,
   mem_add_from_bytes_contains mem B,
   disk_add_from_bytes_contains disk fs B,
   mem_add_from_bytes_open_read mem B hmem,
   disk_add_from_bytes_open_read disk fs B hdisk⟩

/-- Witness for C3 at the content "hi" followed by a newline, on fresh
stores. -/
theorem c3_object_store_roundtrip_witness :
    (InMemoryObjectStore.add_from_bytes ⟨[]⟩ [104, 105, 10]).1 = sha256hex [104, 105, 10] ∧
    (FileObjectStore.add_from_bytes ⟨"objects"⟩ ⟨[]⟩ [104, 105, 10]).1 = sha256hex [104, 105, 10] ∧
    isLowerHex64 (sha256hex [104, 105, 10]) = true ∧
    (InMemoryObjectStore.add_from_bytes ⟨[]⟩ [104, 105, 10]).2.contains (sha256hex [104, 105, 10]) = true ∧
    FileObjectStore.contains ⟨"objects"⟩ (FileObjectStore.add_from_bytes ⟨"objects"⟩ ⟨[]⟩ [104, 105, 10]).2.1
      (sha256hex [104, 105, 10]) = true ∧
    (InMemoryObjectStore.add_from_bytes ⟨[]⟩ [104, 105, 10]).2.open_read (sha256hex [104, 105, 10]) =
      some [104, 105, 10] ∧
    FileObjectStore.open_read ⟨"objects"⟩ (FileObjectStore.add_from_bytes ⟨"objects"⟩ ⟨[]⟩ [104, 105, 10]).2.1
      (sha256hex [104, 105, 10]) = some [104, 105, 10] :=
  c3_object_store_roundtrip [104, 105, 10] ⟨[]⟩ ⟨"objects"⟩ ⟨[]⟩
    (by simp [List.lookup]) (by simp [List.lookup])

/-! ## C4: atomicity of the on-disk writes -/

theorem applyOps_temp_only (chunks : List Bytes) (st : FsState) :
    (applyOps st (chunks.map FsOp.writeTempChunk)).files = st.files := by
  induction chunks generalizing st with
  | nil => rfl
  | cons c cs ih =>
      simp only [List.map_cons, applyOps, List.foldl_cons, applyOp]
      simpa [applyOps] using ih { st with temp := st.temp ++ c }

/-- C4 counterexample: the claim says every write of the on-disk store
(add_from_bytes as well as add_from_io) streams to a temporary file and
never touches root/<hex> except by the final rename; but
FileObjectStore.add_from_bytes writes the destination path directly with
Path.write_bytes, as the trace at the concrete input [3] on a fresh store
shows. -/
theorem c4_counterexample :
    ¬ (∀ (s : FileObjectStore) (fs : FileSystem) (obj : Bytes),
         (s.add_from_bytes fs obj).2.2.all (fun op => !op.publishesDirect) = true) := by
  intro h
  have hx := h ⟨"objects"⟩ ⟨[]⟩ [3]
  simp [FileObjectStore.add_from_bytes, List.lookup, FsOp.publishesDirect] at hx

/-- C4 amended: add_from_io streams every chunk to a temporary file while
hashing and, only after hashing completes, issues exactly one unlink
(key already present) or one rename into place (key absent); hence an
interrupted add_from_io never publishes any file.  add_from_bytes, by
contrast, hashes in memory and then writes the destination path
root/<hex> directly when the key is absent, so its write is not staged
through a temporary file. -/
theorem c4_disk_write_atomicity (s : FileObjectStore) (fs : FileSystem) (chunks : List Bytes) (obj : Bytes) :
    ((s.add_from_io fs chunks).2.2 = chunks.map FsOp.writeTempChunk ++ [FsOp.unlinkTemp] ∨
     (s.add_from_io fs chunks).2.2 =
       chunks.map FsOp.writeTempChunk ++ [FsOp.renameTempTo (s.keyPath (sha256hex chunks.flatten))]) ∧
    ((s.add_from_io fs chunks).2.2.all (fun op => !op.publishesDirect) = true) ∧
    (∀ n, n < (s.add_from_io fs chunks).2.2.length →
       ∀ st : FsState, (applyOps st ((s.add_from_io fs chunks).2.2.take n)).files = st.files) ∧
    ((fs.files.lookup (s.keyPath (sha256hex obj))).isSome = false →
       (s.add_from_bytes fs obj).2.2 = [FsOp.writeFileDirect (s.keyPath (sha256hex obj)) obj]) := by
  have htrace :
      (s.add_from_io fs chunks).2.2 = chunks.map FsOp.writeTempChunk ++ [FsOp.unlinkTemp] ∨
      (s.add_from_io fs chunks).2.2 =
        chunks.map FsOp.writeTempChunk ++ [FsOp.renameTempTo (s.keyPath (sha256hex chunks.flatten))] := by
    simp only [FileObjectStore.add_from_io]
    split
    · exact Or.inl rfl
    · exact Or.inr rfl
  refine ⟨htrace, ?_, ?_, ?_⟩
  · rcases htrace with h | h <;> rw [h] <;>
      simp [List.all_eq_true, FsOp.publishesDirect]
  · intro n hn st
    have hlen : (s.add_from_io fs chunks).2.2.length = chunks.length + 1 := by
      rcases htrace with h | h <;> simp [h]
    have hn' : n ≤ chunks.length := by omega
    have htake : (s.add_from_io fs chunks).2.2.take n = (chunks.take n).map FsOp.writeTempChunk := by
      rcases htrace with h | h <;>
        rw [h, List.take_append_of_le_length (by simpa using hn'), List.map_take]
    rw [htake]
    exact applyOps_temp_only _ st
  · intro habs
    simp only [FileObjectStore.add_from_bytes]
    simp [habs]

/-- Witness for C4 at a two-chunk stream and the byte [3] on fresh
stores: the streamed trace has no direct write, interrupting it after its
first operation publishes nothing, and add_from_bytes issues one direct
write of the destination path. -/
theorem c4_disk_write_atomicity_witness :
    ((FileObjectStore.add_from_io ⟨"objects"⟩ ⟨[]⟩ [[1], [2]]).2.2.all (fun op => !op.publishesDirect) = true) ∧
    (1 < (FileObjectStore.add_from_io ⟨"objects"⟩ ⟨[]⟩ [[1], [2]]).2.2.length) ∧
    ((applyOps ⟨[("keep", [9])], []⟩ ((FileObjectStore.add_from_io ⟨"objects"⟩ ⟨[]⟩ [[1], [2]]).2.2.take 1)).files
       = [("keep", [9])]) ∧
    ((FileObjectStore.add_from_bytes ⟨"objects"⟩ ⟨[]⟩ [3]).2.2 =
       [FsOp.writeFileDirect (FileObjectStore.keyPath ⟨"objects"⟩ (sha256hex [3])) [3]]) := by
  have h := c4_disk_write_atomicity ⟨"objects"⟩ ⟨[]⟩ [[1], [2]] [3]
  exact ⟨h.2.1, by decide, h.2.2.1 1 (by decide) ⟨[("keep", [9])], []⟩, h.2.2.2 (by simp [List.lookup])⟩

/-! ## C5: the small-file threshold -/

/-- C5 counterexample: the claim says a file one byte over the threshold
uses the external staged path in both directions; with threshold 1 MB and
size 1048577 the upload side does stage, but the download side of
copy_from_remote raises NotImplementedError (its staged branch is
commented out), so the boundary does not behave identically for
downloads. -/
theorem c5_counterexample :
    upload_transfer 1048577 1 = TransferMethod.staged ∧
    retrieve_action "out.bin" FType.dash "aa" false (some 1048577) 1 =
      RetrieveAction.raiseNotImplemented ∧
    RetrieveAction.raiseNotImplemented ≠ RetrieveAction.stagedDownload := by
  decide

/-- C5 amended: the threshold small_file_size_mb * 1024 * 1024 is
inclusive for simple transfer in both directions; a strictly larger
upload uses the external staged path, while a strictly larger download
(of a regular file whose checksum is not yet stored) raises
NotImplementedError instead of a staged transfer. -/
theorem c5_threshold (sz thrMB : Nat) (sp cs : String) (hsp : sp ≠ script_filename) :
    (sz ≤ thrMB * 1024 * 1024 →
       upload_transfer sz thrMB = TransferMethod.simple ∧
       retrieve_action sp FType.dash cs false (some sz) thrMB = RetrieveAction.simpleDownload) ∧
    (thrMB * 1024 * 1024 < sz →
       upload_transfer sz thrMB = TransferMethod.staged ∧
       retrieve_action sp FType.dash cs false (some sz) thrMB = RetrieveAction.raiseNotImplemented) := by
  constructor
  · intro hle
    constructor
    · simp [upload_transfer, hle]
    · simp [retrieve_action, hsp, sizeWithin, hle]
  · intro hgt
    constructor
    · simp [upload_transfer, Nat.not_le_of_lt hgt]
    · simp [retrieve_action, hsp, sizeWithin, Nat.not_le_of_lt hgt]

/-- Witness for C5 at threshold 1 MB: size 1048576 is simple in both
directions, size 1048577 stages the upload and raises on the download. -/
theorem c5_threshold_witness :
    (upload_transfer 1048576 1 = TransferMethod.simple ∧
     retrieve_action "out.bin" FType.dash "aa" false (some 1048576) 1 = RetrieveAction.simpleDownload) ∧
    (upload_transfer 1048577 1 = TransferMethod.staged ∧
     retrieve_action "out.bin" FType.dash "aa" false (some 1048577) 1 = RetrieveAction.raiseNotImplemented) :=
  ⟨(c5_threshold 1048576 1 "out.bin" "aa" (by decide)).1 (by decide),
   (c5_threshold 1048577 1 "out.bin" "aa" (by decide)).2 (by decide)⟩

/-! ## C6 and C10: retrieval -/

theorem mem_upsert (l : List (String × α)) (k : String) (v : α) (pr : String × α) :
    pr ∈ upsert l k v → pr = (k, v) ∨ pr ∈ l := by
  induction l with
  | nil =>
      intro h
      simp only [upsert, List.mem_singleton] at h
      exact Or.inl h
  | cons p rest ih =>
      intro h
      obtain ⟨a, b⟩ := p
      by_cases hak : a = k
      · subst hak
        simp [upsert] at h
        rcases h with h1 | h1
        · exact Or.inl h1
        · exact Or.inr (List.mem_cons_of_mem _ h1)
      · simp [upsert, hak] at h
        rcases h with h1 | h1
        · exact Or.inr (by simp [h1])
        · rcases ih h1 with h2 | h2
          · exact Or.inl h2
          · exact Or.inr (List.mem_cons_of_mem _ h2)

theorem upsert_forall (P : String → Prop) (k : String) (v : α) (hk : P k)
    (l : List (String × α)) (hl : ∀ pr ∈ l, P pr.1) :
    ∀ pr ∈ upsert l k v, P pr.1 := by
  intro pr hpr
  rcases mem_upsert l k v pr hpr with rfl | h
  · exact hk
  · exact hl pr h

theorem lookup_eq_none_of_forall (l : List (String × α)) (k : String) :
    (∀ pr ∈ l, pr.1 ≠ k) → l.lookup k = none := by
  induction l with
  | nil => intro h; rfl
  | cons p rest ih =>
      intro h
      obtain ⟨a, b⟩ := p
      have ha : k ≠ a := fun hk => h (a, b) (List.mem_cons_self _ _) hk.symm
      have hb : (k == a) = false := beq_eq_false_iff_ne.mpr ha
      simp only [List.lookup, hb]
      exact ih (fun q hq => h q (List.mem_cons_of_mem _ hq))

theorem process_entry_downloads_of_contains (thr : Nat) (e : RemoteEntry) (acc : RetrieveAcc)
    (hc : acc.ostore.contains e.checksum = true) :
    (process_entry thr e acc).1.downloads = acc.downloads := by
  simp only [process_entry]
  split_ifs <;> simp_all

theorem process_entry_script_inv (thr : Nat) (e : RemoteEntry) (acc : RetrieveAcc)
    (hp : ∀ pr ∈ acc.paths, pr.1 ≠ script_filename)
    (hd : script_filename ∉ acc.downloads) :
    (∀ pr ∈ (process_entry thr e acc).1.paths, pr.1 ≠ script_filename) ∧
    script_filename ∉ (process_entry thr e acc).1.downloads := by
  by_cases hsp : e.save_path = script_filename
  · simp only [process_entry, if_pos hsp]
    exact ⟨hp, hd⟩
  · have hup : ∀ v, ∀ pr ∈ upsert acc.paths e.save_path v, pr.1 ≠ script_filename :=
      fun v => upsert_forall (fun x => x ≠ script_filename) e.save_path v hsp acc.paths hp
    have hmem : script_filename ∉ acc.downloads ++ [e.save_path] := by
      simp only [List.mem_append, List.mem_singleton]
      rintro (h | h)
      · exact hd h
      · exact hsp h.symm
    simp only [process_entry, if_neg hsp]
    by_cases hl : e.ftype = FType.l
    · rw [if_pos hl]; exact ⟨hp, hd⟩
    rw [if_neg hl]
    by_cases hdir : e.ftype = FType.d
    · rw [if_pos hdir]; exact ⟨hup none, hd⟩
    rw [if_neg hdir]
    by_cases hdash : e.ftype = FType.dash
    · rw [if_pos hdash]
      by_cases hc : acc.ostore.contains e.checksum = true
      · rw [if_pos hc]; exact ⟨hup _, hd⟩
      · rw [if_neg hc]
        by_cases hsw : sizeWithin e.size thr = true
        · rw [if_pos hsw]
          by_cases hmis : (acc.ostore.add_from_bytes e.content).1 ≠ e.checksum
          · rw [if_pos hmis]; exact ⟨hp, hmem⟩
          · rw [if_neg hmis]; exact ⟨hup _, hmem⟩
        · rw [if_neg hsw]; exact ⟨hp, hd⟩
    · rw [if_neg hdash]; exact ⟨hp, hd⟩

theorem copy_from_remote_loop_script_inv (thr : Nat) (entries : List RemoteEntry) (acc : RetrieveAcc)
    (hp : ∀ pr ∈ acc.paths, pr.1 ≠ script_filename)
    (hd : script_filename ∉ acc.downloads) :
    (∀ pr ∈ (copy_from_remote_loop thr entries acc).1.paths, pr.1 ≠ script_filename) ∧
    script_filename ∉ (copy_from_remote_loop thr entries acc).1.downloads := by
  induction entries generalizing acc with
  | nil => exact ⟨hp, hd⟩
  | cons e rest ih =>
      have h1 := process_entry_script_inv thr e acc hp hd
      unfold copy_from_remote_loop
      rcases hpe : process_entry thr e acc with ⟨acc', err⟩
      rw [hpe] at h1
      cases err with
      | none => exact ih acc' h1.1 h1.2
      | some x => exact h1

theorem copy_from_remote_loop_append (thr : Nat) (l1 l2 : List RemoteEntry) (acc0 acc : RetrieveAcc)
    (h : copy_from_remote_loop thr l1 acc0 = (acc, none)) :
    copy_from_remote_loop thr (l1 ++ l2) acc0 = copy_from_remote_loop thr l2 acc := by
  induction l1 generalizing acc0 with
  | nil =>
      simp only [copy_from_remote_loop, Prod.mk.injEq] at h
      rw [List.nil_append, h.1]
  | cons e rest ih =>
      simp only [copy_from_remote_loop, List.cons_append] at h ⊢
      rcases hpe : process_entry thr e acc0 with ⟨acc', err⟩
      rw [hpe] at h
      cases err with
      | none => exact ih acc' h
      | some x =>
          have h' : (acc', some x) = (acc, none) := h
          simp at h'

/-- C6: the per-match handling of copy_from_remote.  The script filename
is the constant job.sh; a match equal to it is skipped; symlinks are
skipped; a directory is recorded as null; for a regular file the remote
checksum is consulted first and, when it is already in the object store,
the existing key is recorded with neither download nor store write; a
download can only have happened when the checksum was absent from the
store; and the retrieved_paths mapping recorded on the Process never
contains the script filename, which is also never downloaded. -/
theorem c6_copy_from_remote (thr : Nat) :
    (script_filename = "job.sh") ∧
    (∀ e acc, e.save_path = script_filename → process_entry thr e acc = (acc, none)) ∧
    (∀ e acc, e.save_path ≠ script_filename → e.ftype = FType.l →
       process_entry thr e acc = (acc, none)) ∧
    (∀ e acc, e.save_path ≠ script_filename → e.ftype = FType.d →
       process_entry thr e acc = ({ acc with paths := upsert acc.paths e.save_path none }, none)) ∧
    (∀ e acc, e.save_path ≠ script_filename → e.ftype = FType.dash →
       acc.ostore.contains e.checksum = true →
       process_entry thr e acc =
         ({ acc with paths := upsert acc.paths e.save_path (some e.checksum) }, none)) ∧
    (∀ e acc, (process_entry thr e acc).1.downloads ≠ acc.downloads →
       acc.ostore.contains e.checksum = false) ∧
    (∀ entries ostore proc,
       (copy_from_remote thr entries ostore proc).2 = none →
       (copy_from_remote thr entries ostore proc).1.1.retrieved_paths.lookup script_filename = none) ∧
    (∀ entries ostore proc,
       script_filename ∉ (copy_from_remote thr entries ostore proc).1.2.2) := by
  have hinv : ∀ entries (ostore : InMemoryObjectStore),
      (∀ pr ∈ (copy_from_remote_loop thr entries ⟨[], ostore, []⟩).1.paths,
         pr.1 ≠ script_filename) ∧
      script_filename ∉ (copy_from_remote_loop thr entries ⟨[], ostore, []⟩).1.downloads :=
    fun entries ostore =>
      copy_from_remote_loop_script_inv thr entries ⟨[], ostore, []⟩ (by simp) (by simp)
  refine ⟨rfl, ?_, ?_, ?_, ?_, ?_, ?_, ?_⟩
  · intro e acc hsp
    simp [process_entry, hsp]
  · intro e acc hsp hl
    simp [process_entry, hsp, hl]
  · intro e acc hsp hd
    simp [process_entry, hsp, hd]
  · intro e acc hsp hd hc
    simp [process_entry, hsp, hd, hc]
  · intro e acc hch
    by_contra hc
    simp only [Bool.not_eq_false] at hc
    exact hch (process_entry_downloads_of_contains thr e acc hc)
  · intro entries ostore proc hok
    have hscript := (hinv entries ostore).1
    unfold copy_from_remote at hok ⊢
    rcases hl : copy_from_remote_loop thr entries ⟨[], ostore, []⟩ with ⟨acc, err⟩
    rw [hl] at hok hscript
    cases err with
    | none => exact lookup_eq_none_of_forall _ _ hscript
    | some x => simp at hok
  · intro entries ostore proc
    have hdl := (hinv entries ostore).2
    unfold copy_from_remote
    rcases hl : copy_from_remote_loop thr entries ⟨[], ostore, []⟩ with ⟨acc, err⟩
    rw [hl] at hdl
    cases err with
    | none => exact hdl
    | some x => exact hdl

/-- Witness for C6 on concrete matches: the script file is skipped, a
symlink is skipped, a directory maps to null, a regular file whose
checksum is already stored records the existing key without download, and
a retrieval containing only a directory records no script entry. -/
theorem c6_copy_from_remote_witness :
    process_entry 1 ⟨"job.sh", FType.dash, "aa", [], some 0⟩ ⟨[], ⟨[]⟩, []⟩ = (⟨[], ⟨[]⟩, []⟩, none) ∧
    process_entry 1 ⟨"lnk", FType.l, "aa", [], some 0⟩ ⟨[], ⟨[]⟩, []⟩ = (⟨[], ⟨[]⟩, []⟩, none) ∧
    process_entry 1 ⟨"sub", FType.d, "aa", [], some 0⟩ ⟨[], ⟨[]⟩, []⟩ =
      (⟨[("sub", none)], ⟨[]⟩, []⟩, none) ∧
    process_entry 1 ⟨"f.txt", FType.dash, "aa", [7], some 1⟩ ⟨[], ⟨[("aa", [1])]⟩, []⟩ =
      (⟨[("f.txt", some "aa")], ⟨[("aa", [1])]⟩, []⟩, none) ∧
    (copy_from_remote 1 [⟨"sub", FType.d, "aa", [], some 0⟩] ⟨[]⟩ pCreated).1.1.retrieved_paths.lookup
        script_filename = none := by
  have h := c6_copy_from_remote 1
  refine ⟨h.2.1 _ _ rfl, h.2.2.1 _ _ (by decide) rfl, ?_, ?_, ?_⟩
  · have := h.2.2.2.1 ⟨"sub", FType.d, "aa", [], some 0⟩ ⟨[], ⟨[]⟩, []⟩ (by decide) rfl
    simpa [upsert] using this
  · have := h.2.2.2.2.1 ⟨"f.txt", FType.dash, "aa", [7], some 1⟩ ⟨[], ⟨[("aa", [1])]⟩, []⟩
      (by decide) rfl (by decide)
    simpa [upsert] using this
  · exact h.2.2.2.2.2.2.1 _ _ _ (by decide)

/-- C10: when copy_from_remote downloads a regular file and the SHA-256
of the downloaded bytes differs from the remote checksum, the function
raises RuntimeError, but only after add_from_bytes has already committed
the downloaded bytes under their own hash: the returned store contains
that key, the download was issued, and the Process row is returned
unchanged, so no retrieved_paths entry is recorded for the file. -/
theorem c10_checksum_mismatch_commits (thr : Nat) (pre : List RemoteEntry) (e : RemoteEntry)
    (post : List RemoteEntry) (ostore : InMemoryObjectStore) (proc : Process) (acc : RetrieveAcc)
    (hpre : copy_from_remote_loop thr pre ⟨[], ostore, []⟩ = (acc, none))
    (hsp : e.save_path ≠ script_filename)
    (hft : e.ftype = FType.dash)
    (habs : acc.ostore.contains e.checksum = false)
    (hsz : sizeWithin e.size thr = true)
    (hmis : sha256hex e.content ≠ e.checksum) :
    copy_from_remote thr (pre ++ e :: post) ostore proc =
      ((proc, (acc.ostore.add_from_bytes e.content).2, acc.downloads ++ [e.save_path]),
       some ⟨"RuntimeError", "checksum mismatch for downloaded file"⟩) ∧
    (acc.ostore.add_from_bytes e.content).2.contains (sha256hex e.content) = true := by
  have hfst := mem_add_from_bytes_fst acc.ostore e.content
  have hpe : process_entry thr e acc =
      ({ acc with ostore := (acc.ostore.add_from_bytes e.content).2,
                  downloads := acc.downloads ++ [e.save_path] },
       some ⟨"RuntimeError", "checksum mismatch for downloaded file"⟩) := by
    simp only [process_entry, if_neg hsp, hft]
    simp [habs, hsz, hfst, hmis]
  have hloop := copy_from_remote_loop_append thr pre (e :: post) ⟨[], ostore, []⟩ acc hpre
  constructor
  · unfold copy_from_remote
    rw [hloop]
    simp only [copy_from_remote_loop]
    rw [hpe]
  · exact mem_add_from_bytes_contains _ _

/-- Witness for C10: a one-byte file whose remote checksum is the bogus
string deadbeef; the downloaded byte is committed under its real hash,
the step fails with RuntimeError, and the Process row is unchanged. -/
theorem c10_checksum_mismatch_commits_witness :
    copy_from_remote 1 [⟨"out.txt", FType.dash, "deadbeef", [120], some 1⟩] ⟨[]⟩ pCreated =
      ((pCreated, (InMemoryObjectStore.add_from_bytes ⟨[]⟩ [120]).2, ["out.txt"]),
       some ⟨"RuntimeError", "checksum mismatch for downloaded file"⟩) ∧
    (InMemoryObjectStore.add_from_bytes ⟨[]⟩ [120]).2.contains (sha256hex [120]) = true := by
  have h := c10_checksum_mismatch_commits 1 [] ⟨"out.txt", FType.dash, "deadbeef", [120], some 1⟩
    [] ⟨[]⟩ pCreated ⟨[], ⟨[]⟩, []⟩ rfl (by decide) rfl (by decide) (by decide) (by decide)
  simpa using h

/-! ## C7: run_unfinished_calcjobs -/

/-- C7: the claim says run_unfinished_calcjobs selects exactly the
Processing rows in state playing and is an error-free no-op when none is
playing; but the call site passes the keyword argument where while
Storage.iter_rows declares filters (the spec names the parameter where),
so every invocation raises TypeError before any row is read; in
particular it never completes without error, for any stored rows and any
limit. -/
theorem c7_run_unfinished_typeerror (o : Process → Oracle) (rows : List Process) (limit : Option Nat) :
    run_unfinished_calcjobs o rows limit =
      .error ⟨"TypeError", "iter_rows() got an unexpected keyword argument: where"⟩ := by
  have hkw : kwargs_accepted iter_rows_kwparams run_unfinished_iter_rows_kwargs = false := by decide
  simp [run_unfinished_calcjobs, hkw]

/-! ## C8: save_from_dict with an inline content object -/

theorem save_objects_loop_content_error (rf : String → Bytes) :
    ∀ (objs : List (String × ObjSpec)) (store : InMemoryObjectStore) (l2k : List (String × String)),
      (∀ p ∈ objs, p.2 ≠ ObjSpec.invalid) →
      (∃ p ∈ objs, ∃ t enc ex, p.2 = ObjSpec.content t enc ex) →
      save_objects_loop rf objs store l2k =
        .error ⟨"TypeError", "add_from_bytes() got an unexpected keyword argument: ext"⟩
  | [], _, _, _, hex => by simp at hex
  | (lab, spec) :: rest, store, l2k, hwf, hex => by
      cases spec with
      | content t enc ex =>
          simp [save_objects_loop, kwargs_accepted, add_from_bytes_kwparams,
                save_from_dict_add_from_bytes_kwargs]
      | filePath pv =>
          simp only [save_objects_loop]
          apply save_objects_loop_content_error rf rest
          · exact fun p hp => hwf p (List.mem_cons_of_mem _ hp)
          · obtain ⟨p, hp, t, enc, ex, hc⟩ := hex
            rcases List.mem_cons.mp hp with rfl | hp'
            · simp at hc
            · exact ⟨p, hp', t, enc, ex, hc⟩
      | invalid => exact absurd rfl (hwf (lab, .invalid) (List.mem_cons_self _ _))

/-- C8: the claim says save_from_dict stores each objects entry carrying
a content string and then returns normally for well-formed input; but the
call passes the keyword argument ext to add_from_bytes, whose fireflow
signature no longer declares it (the parameter existed only in the older
firecrest_wflow store), so any input containing a content object raises
TypeError instead of returning; the relational phase and the upload_paths
rewriting are never reached. -/
theorem c8_save_from_dict_typeerror (rf : String → Bytes) (store : InMemoryObjectStore) (db : Db)
    (input : IngestInput)
    (hwf : ∀ p ∈ input.objects, p.2 ≠ ObjSpec.invalid)
    (hcontent : ∃ p ∈ input.objects, ∃ t enc ex, p.2 = ObjSpec.content t enc ex) :
    save_from_dict rf store db input =
      .error ⟨"TypeError", "add_from_bytes() got an unexpected keyword argument: ext"⟩ := by
  unfold save_from_dict
  rw [save_objects_loop_content_error rf input.objects store [] hwf hcontent]

/-- Witness for C8: ingesting one object with content "hi" raises the
TypeError. -/
theorem c8_save_from_dict_typeerror_witness :
    save_from_dict (fun _ => []) ⟨[]⟩ ⟨[], [], [], 1⟩
        ⟨[("a", ObjSpec.content "hi" "utf8" "txt")], [], [], []⟩ =
      .error ⟨"TypeError", "add_from_bytes() got an unexpected keyword argument: ext"⟩ :=
  c8_save_from_dict_typeerror (fun _ => []) ⟨[]⟩ ⟨[], [], [], 1⟩
    ⟨[("a", ObjSpec.content "hi" "utf8" "txt")], [], [], []⟩
    (by intro p hp; simp at hp; subst hp; simp)
    ⟨("a", ObjSpec.content "hi" "utf8" "txt"), by simp, "hi", "utf8", "txt", rfl⟩

/-! ## C9: the filter string DSL -/

/-- C9: the post-parse dispatch of filter_from_string accepts exactly the
comparators ==, !=, >, >=, <, <=, IN, NOT IN, LIKE, NOT LIKE over a
single entity's columns (any other comparator token is rejected); an
unknown column or a reference to a joined table raises the structured
FilterStringError with its user-visible message and its detail; and the
predicate built from the example filter (pk over 0 AND label LIKE the
pattern a-percent), evaluated through iter_rows and count_rows, selects
exactly the rows satisfying both conjuncts, ordered by pk. -/
theorem c9_filter_from_string (fs : String) :
    (∀ col v, clientMeta.columns.contains col = true → v.isDict = false →
       parse_triple fs clientMeta (.plist [.pdict (some col) none, .pstr "==", v]) = .ok (.cmp .ceq col v) ∧
       parse_triple fs clientMeta (.plist [.pdict (some col) none, .pstr "!=", v]) = .ok (.cmp .cne col v) ∧
       parse_triple fs clientMeta (.plist [.pdict (some col) none, .pstr ">", v]) = .ok (.cmp .cgt col v) ∧
       parse_triple fs clientMeta (.plist [.pdict (some col) none, .pstr ">=", v]) = .ok (.cmp .cge col v) ∧
       parse_triple fs clientMeta (.plist [.pdict (some col) none, .pstr "<", v]) = .ok (.cmp .clt col v) ∧
       parse_triple fs clientMeta (.plist [.pdict (some col) none, .pstr "<=", v]) = .ok (.cmp .cle col v) ∧
       parse_triple fs clientMeta (.plist [.pdict (some col) none, .pstr "IN", v]) = .ok (.isIn col v) ∧
       parse_triple fs clientMeta (.plist [.pdict (some col) none, .plist [.pstr "NOT", .pstr "IN"], v]) = .ok (.notIn col v) ∧
       parse_triple fs clientMeta (.plist [.pdict (some col) none, .pstr "LIKE", v]) = .ok (.likeOp col v) ∧
       parse_triple fs clientMeta (.plist [.pdict (some col) none, .plist [.pstr "NOT", .pstr "LIKE"], v]) = .ok (.notLikeOp col v)) ∧
    (∀ col v (c : String), clientMeta.columns.contains col = true → v.isDict = false →
       c ∉ (["==", "!=", ">", ">=", "<", "<=", "IN", "LIKE"] : List String) →
       parse_triple fs clientMeta (.plist [.pdict (some col) none, .pstr c, v]) =
         .error ⟨fs, "Unknown comparator", ""⟩) ∧
    (∀ col cmp v, clientMeta.columns.contains col = false →
       clientMeta.non_column_attrs.contains col = false →
       parse_triple fs clientMeta (.plist [.pdict (some col) none, cmp, v]) =
         .error ⟨fs, "Unknown column " ++ col, "Attribute " ++ col ++ " not found"⟩) ∧
    (∀ col tbl cmp v,
       parse_triple fs clientMeta (.plist [.pdict (some col) (some tbl), cmp, v]) =
         .error ⟨fs, "Unknown table: " ++ tbl, ""⟩) ∧
    (filter_from_parsed fs clientMeta exampleFilterParsed = .ok (some examplePred)) ∧
    (∀ rows : List ClientRow,
       (iter_rows rows ClientRow.pk none 1 [fun r => evalPred (clientColValue r) examplePred]).Perm
         (rows.filter (fun r => decide (0 < r.pk) && sql_like "a%" r.label)) ∧
       List.Pairwise (fun a b : ClientRow => a.pk ≤ b.pk)
         (iter_rows rows ClientRow.pk none 1 [fun r => evalPred (clientColValue r) examplePred]) ∧
       count_rows rows [fun r => evalPred (clientColValue r) examplePred] =
         (rows.filter (fun r => decide (0 < r.pk) && sql_like "a%" r.label)).length) := by
  have hfun : (fun r : ClientRow =>
        ([fun r => evalPred (clientColValue r) examplePred] : List (ClientRow → Bool)).all
          (fun f => f r)) =
      (fun r : ClientRow => decide (0 < r.pk) && sql_like "a%" r.label) := by
    funext r
    simp [evalPred, evalCmp, clientColValue, examplePred]
  have hle_trans : ∀ a b c : ClientRow,
      (decide (a.pk ≤ b.pk)) = true → (decide (b.pk ≤ c.pk)) = true →
      (decide (a.pk ≤ c.pk)) = true := by
    intro a b c hab hbc
    simp only [decide_eq_true_eq] at hab hbc ⊢
    omega
  have hle_total : ∀ a b : ClientRow,
      ((decide (a.pk ≤ b.pk)) || (decide (b.pk ≤ a.pk))) = true := by
    intro a b
    simp only [Bool.or_eq_true, decide_eq_true_eq]
    exact Int.le_total a.pk b.pk
  refine ⟨?_, ?_, ?_, ?_, by rfl, ?_⟩
  · intro col v hcol hv
    have hcm : col ∈ clientMeta.columns := by simpa using hcol
    cases v with
    | pdict c t => simp [PParsed.isDict] at hv
    | pint n =>
        refine ⟨?_, ?_, ?_, ?_, ?_, ?_, ?_, ?_, ?_, ?_⟩ <;> simp [parse_triple, hcol, hcm]
    | pstr s =>
        refine ⟨?_, ?_, ?_, ?_, ?_, ?_, ?_, ?_, ?_, ?_⟩ <;> simp [parse_triple, hcol, hcm]
    | plist l =>
        refine ⟨?_, ?_, ?_, ?_, ?_, ?_, ?_, ?_, ?_, ?_⟩ <;> simp [parse_triple, hcol, hcm]
  · intro col v c hcol hv hc
    have hcm : col ∈ clientMeta.columns := by simpa using hcol
    simp only [List.mem_cons, List.not_mem_nil, or_false] at hc
    push_neg at hc
    obtain ⟨h1, h2, h3, h4, h5, h6, h7, h8⟩ := hc
    cases v with
    | pdict ccc t => simp [PParsed.isDict] at hv
    | pint n => simp [parse_triple, hcol, hcm, h1, h2, h3, h4, h5, h6, h7, h8]
    | pstr s => simp [parse_triple, hcol, hcm, h1, h2, h3, h4, h5, h6, h7, h8]
    | plist l => simp [parse_triple, hcol, hcm, h1, h2, h3, h4, h5, h6, h7, h8]
  · intro col cmp v hcol hnc
    have hcm : col ∉ clientMeta.columns := by simpa using hcol
    have hnm : col ∉ clientMeta.non_column_attrs := by simpa using hnc
    simp [parse_triple, hcol, hnc, hcm, hnm]
  · intro col tbl cmp v
    simp [parse_triple]
  · intro rows
    have hiter : iter_rows rows ClientRow.pk none 1
          [fun r => evalPred (clientColValue r) examplePred] =
        (rows.filter (fun r : ClientRow => decide (0 < r.pk) && sql_like "a%" r.label)).mergeSort
          (fun a b => decide (a.pk ≤ b.pk)) := by
      simp only [iter_rows, hfun]
    refine ⟨?_, ?_, ?_⟩
    · rw [hiter]
      exact List.mergeSort_perm _ _
    · rw [hiter]
      have := List.sorted_mergeSort hle_trans hle_total
        (rows.filter (fun r : ClientRow => decide (0 < r.pk) && sql_like "a%" r.label))
      exact this.imp (fun h => by simpa using h)
    · simp only [count_rows, hfun]

/-- Witness for C9: concrete instances of the comparator dispatch (the
single equal sign token of the grammar is rejected by the dispatch), the
unknown column and joined-table errors, and the example filter applied to
the two-row table [(1, abc), (2, bcd)]. -/
theorem c9_filter_from_string_witness :
    parse_triple "f" clientMeta (.plist [.pdict (some "pk") none, .pstr "==", .pint 1]) =
      .ok (.cmp .ceq "pk" (.pint 1)) ∧
    parse_triple "f" clientMeta (.plist [.pdict (some "pk") none, .pstr "=", .pint 1]) =
      .error ⟨"f", "Unknown comparator", ""⟩ ∧
    parse_triple "f" clientMeta (.plist [.pdict (some "bogus") none, .pstr "==", .pint 1]) =
      .error ⟨"f", "Unknown column " ++ "bogus", "Attribute " ++ "bogus" ++ " not found"⟩ ∧
    parse_triple "f" clientMeta (.plist [.pdict (some "state") (some "status"), .pstr "==", .pint 1]) =
      .error ⟨"f", "Unknown table: " ++ "status", ""⟩ ∧
    filter_from_parsed "f" clientMeta exampleFilterParsed = .ok (some examplePred) ∧
    (iter_rows [⟨1, "abc"⟩, ⟨2, "bcd"⟩] ClientRow.pk none 1
        [fun r => evalPred (clientColValue r) examplePred]).Perm
      (([⟨1, "abc"⟩, ⟨2, "bcd"⟩] : List ClientRow).filter
        (fun r => decide (0 < r.pk) && sql_like "a%" r.label)) ∧
    count_rows [⟨1, "abc"⟩, ⟨2, "bcd"⟩] [fun r => evalPred (clientColValue r) examplePred] =
      (([⟨1, "abc"⟩, ⟨2, "bcd"⟩] : List ClientRow).filter
        (fun r => decide (0 < r.pk) && sql_like "a%" r.label)).length := by
  have h := c9_filter_from_string "f"
  exact ⟨(h.1 "pk" (.pint 1) rfl rfl).1,
         h.2.1 "pk" (.pint 1) "=" rfl rfl (by decide),
         h.2.2.1 "bogus" (.pstr "==") (.pint 1) rfl rfl,
         h.2.2.2.1 "state" "status" (.pstr "==") (.pint 1),
         h.2.2.2.2.1,
         (h.2.2.2.2.2 [⟨1, "abc"⟩, ⟨2, "bcd"⟩]).1,
         (h.2.2.2.2.2 [⟨1, "abc"⟩, ⟨2, "bcd"⟩]).2.2⟩

/-! ## C1 and C2: the process engine -/

@[simp]
theorem applyEffect_step (eff : StepEffect) (p : Process) : (applyEffect eff p).step = p.step := by
  obtain ⟨jid, rp⟩ := eff
  cases jid <;> cases rp <;> rfl

@[simp]
theorem applyEffect_state (eff : StepEffect) (p : Process) : (applyEffect eff p).state = p.state := by
  obtain ⟨jid, rp⟩ := eff
  cases jid <;> cases rp <;> rfl

@[simp]
theorem applyEffect_exception (eff : StepEffect) (p : Process) :
    (applyEffect eff p).exception = p.exception := by
  obtain ⟨jid, rp⟩ := eff
  cases jid <;> cases rp <;> rfl

theorem act_none (o : Oracle) (s next : Step) (q p' : Process) (h : act o s next q = (p', none)) :
    p'.state = q.state ∧ p'.exception = q.exception ∧ p'.step = next := by
  unfold act at h
  cases ho : o s with
  | error e => rw [ho] at h; simp at h
  | ok eff =>
      rw [ho] at h
      simp only [Prod.mk.injEq] at h
      obtain ⟨h1, -⟩ := h
      subst h1
      simp

theorem act_some (o : Oracle) (s next : Step) (q p' : Process) (e : ExcInfo)
    (h : act o s next q = (p', some e)) : p' = q ∧ o s = .error e := by
  unfold act at h
  cases ho : o s with
  | error e' =>
      rw [ho] at h
      simp only [Prod.mk.injEq, Option.some.injEq] at h
      obtain ⟨h1, h2⟩ := h
      subst h1; subst h2
      exact ⟨rfl, rfl⟩
  | ok eff => rw [ho] at h; simp at h

theorem run_step_cases (o : Oracle) (p : Process) :
    (p.step = Step.created →
       run_step o p = act o .uploading .submitting { p with step := Step.uploading }) ∧
    (p.step = Step.uploading → run_step o p = act o .uploading .submitting p) ∧
    (p.step = Step.submitting → run_step o p = act o .submitting .running p) ∧
    (p.step = Step.running → run_step o p = act o .running .retrieving p) ∧
    (p.step = Step.retrieving → run_step o p = act o .retrieving .finalised p) ∧
    (p.step = Step.finalised →
       run_step o p = (p, some ⟨"ValueError", "Unknown step name"⟩)) := by
  refine ⟨?_, ?_, ?_, ?_, ?_, ?_⟩ <;> intro hs <;> simp [run_step, hs]

theorem run_step_some_step (o : Oracle) (p p' : Process) (e : ExcInfo)
    (h : run_step o p = (p', some e)) (hf : p.step ≠ Step.finalised) :
    p'.step ≠ Step.finalised := by
  have hc := run_step_cases o p
  cases hs : p.step with
  | created =>
      rw [hc.1 hs] at h
      rw [(act_some o _ _ _ _ _ h).1]
      simp
  | uploading =>
      rw [hc.2.1 hs] at h
      rw [(act_some o _ _ _ _ _ h).1, hs]
      simp
  | submitting =>
      rw [hc.2.2.1 hs] at h
      rw [(act_some o _ _ _ _ _ h).1, hs]
      simp
  | running =>
      rw [hc.2.2.2.1 hs] at h
      rw [(act_some o _ _ _ _ _ h).1, hs]
      simp
  | retrieving =>
      rw [hc.2.2.2.2.1 hs] at h
      rw [(act_some o _ _ _ _ _ h).1, hs]
      simp
  | finalised => exact absurd hs hf

theorem run_step_none_frame (o : Oracle) (p p' : Process) (h : run_step o p = (p', none)) :
    p'.state = p.state ∧ p'.exception = p.exception := by
  have hc := run_step_cases o p
  cases hs : p.step with
  | created =>
      rw [hc.1 hs] at h
      have := act_none o _ _ _ _ h
      exact ⟨this.1, this.2.1⟩
  | uploading =>
      rw [hc.2.1 hs] at h
      have := act_none o _ _ _ _ h
      exact ⟨this.1, this.2.1⟩
  | submitting =>
      rw [hc.2.2.1 hs] at h
      have := act_none o _ _ _ _ h
      exact ⟨this.1, this.2.1⟩
  | running =>
      rw [hc.2.2.2.1 hs] at h
      have := act_none o _ _ _ _ h
      exact ⟨this.1, this.2.1⟩
  | retrieving =>
      rw [hc.2.2.2.2.1 hs] at h
      have := act_none o _ _ _ _ h
      exact ⟨this.1, this.2.1⟩
  | finalised =>
      rw [hc.2.2.2.2.2 hs] at h
      simp at h

theorem run_calcjob_loop_inv (o : Oracle) :
    ∀ (fuel : Nat) (p : Process) (ws : List Process),
      ((run_calcjob_loop o fuel p ws).1.state = p.state ∧
       (run_calcjob_loop o fuel p ws).1.exception = p.exception) ∨
      ((run_calcjob_loop o fuel p ws).1.state = PState.excepted ∧
       (run_calcjob_loop o fuel p ws).1.step ≠ Step.finalised)
  | 0, p, ws => Or.inl ⟨rfl, rfl⟩
  | fuel + 1, p, ws => by
      by_cases hf : p.step = Step.finalised
      · simp [run_calcjob_loop, hf]
      · simp only [run_calcjob_loop, if_neg hf]
        rcases hrs : run_step o p with ⟨p', err⟩
        cases err with
        | some e =>
            right
            constructor
            · simp
            · simpa using run_step_some_step o p p' e hrs hf
        | none =>
            rcases run_calcjob_loop_inv o fuel p' (ws ++ [p']) with ⟨h1, h2⟩ | hr
            · left
              have hn := run_step_none_frame o p p' hrs
              exact ⟨h1.trans hn.1, h2.trans hn.2⟩
            · right; exact hr

/-- C2 counterexample: the claim says a process whose step reaches
finalised ends with a null exception field, including a process that
previously excepted and was set back to playing; but run_calcjob never
clears the exception field, so the replayed process pReplayed finishes
with its stale exception string still set. -/
theorem c2_counterexample :
    (run_calcjob oracleAllOk pReplayed).1.step = Step.finalised ∧
    (run_calcjob oracleAllOk pReplayed).1.state = PState.finished ∧
    (run_calcjob oracleAllOk pReplayed).1.exception = some "RuntimeError: boom" ∧
    (run_calcjob oracleAllOk pReplayed).1.exception ≠ none := by
  decide

/-- C2 amended: whenever run_calcjob leaves the step at finalised, the
state has become finished and the exception field is exactly what it was
before the run (so it is null for any process that never excepted, but a
stale message survives a replay). -/
theorem c2_finalised_finished (o : Oracle) (p : Process)
    (h : (run_calcjob o p).1.step = Step.finalised) :
    (run_calcjob o p).1.state = PState.finished ∧
    (run_calcjob o p).1.exception = p.exception := by
  have hinv := run_calcjob_loop_inv o 6 p []
  simp only [run_calcjob] at h ⊢
  by_cases hf : (run_calcjob_loop o 6 p []).1.step = Step.finalised
  · rw [if_pos hf] at h ⊢
    refine ⟨by simp, ?_⟩
    rcases hinv with ⟨-, h2⟩ | ⟨-, h2⟩
    · simpa using h2
    · exact absurd hf h2
  · rw [if_neg hf] at h
    exact absurd h hf

/-- Witness for C2 (amended): a fresh process runs to finalised, ends
finished, and its exception field is unchanged (null). -/
theorem c2_finalised_finished_witness :
    (run_calcjob oracleAllOk pCreated).1.state = PState.finished ∧
    (run_calcjob oracleAllOk pCreated).1.exception = pCreated.exception :=
  c2_finalised_finished oracleAllOk pCreated (by decide)

set_option maxHeartbeats 2000000 in
/-- C1: for every process driven by run_calcjob, when the action of step
s raises exception e while every earlier step action succeeds, the engine
catches it: the final row has state excepted, its exception field holds
the string kind ++ ": " ++ message, the step field is left at s (the step
that was executing when the failure occurred, also when the process
entered the iteration at step created), the final row is the last row
persisted by storage._update_row, and run_multiple_calcjobs is the
independent per-job map, so the other jobs' results are exactly their own
run_calcjob outcomes. -/
theorem c1_engine_exception_capture (o : Oracle) (p : Process) (s : Step) (e : ExcInfo)
    (hrank : Step.rank p.step ≤ Step.rank s)
    (hs0 : s ≠ Step.created) (hs5 : s ≠ Step.finalised) (hp5 : p.step ≠ Step.finalised)
    (hfail : o s = .error e)
    (hbefore : ∀ t, Step.rank t < Step.rank s → ∃ eff, o t = .ok eff) :
    (run_calcjob o p).1.step = s ∧
    (run_calcjob o p).1.state = PState.excepted ∧
    (run_calcjob o p).1.exception = some (e.kind ++ ": " ++ e.msg) ∧
    (run_calcjob o p).2.getLast? = some (run_calcjob o p).1 ∧
    (∀ jobs : List (Oracle × Process),
       run_multiple_calcjobs jobs = jobs.map (fun j => run_calcjob j.1 j.2)) := by
  cases s with
  | created => exact absurd rfl hs0
  | finalised => exact absurd rfl hs5
  | uploading =>
      cases hp : p.step with
      | created =>
          simp [run_calcjob, run_calcjob_loop, run_step, act, hp, hfail, run_multiple_calcjobs]
      | uploading =>
          simp [run_calcjob, run_calcjob_loop, run_step, act, hp, hfail, run_multiple_calcjobs]
      | submitting => rw [hp] at hrank; simp [Step.rank] at hrank
      | running => rw [hp] at hrank; simp [Step.rank] at hrank
      | retrieving => rw [hp] at hrank; simp [Step.rank] at hrank
      | finalised => exact absurd hp hp5
  | submitting =>
      obtain ⟨eff1, ho1⟩ := hbefore Step.uploading (by simp [Step.rank])
      cases hp : p.step with
      | created =>
          simp [run_calcjob, run_calcjob_loop, run_step, act, hp, ho1, hfail, run_multiple_calcjobs]
      | uploading =>
          simp [run_calcjob, run_calcjob_loop, run_step, act, hp, ho1, hfail, run_multiple_calcjobs]
      | submitting =>
          simp [run_calcjob, run_calcjob_loop, run_step, act, hp, hfail, run_multiple_calcjobs]
      | running => rw [hp] at hrank; simp [Step.rank] at hrank
      | retrieving => rw [hp] at hrank; simp [Step.rank] at hrank
      | finalised => exact absurd hp hp5
  | running =>
      obtain ⟨eff1, ho1⟩ := hbefore Step.uploading (by simp [Step.rank])
      obtain ⟨eff2, ho2⟩ := hbefore Step.submitting (by simp [Step.rank])
      cases hp : p.step with
      | created =>
          simp [run_calcjob, run_calcjob_loop, run_step, act, hp, ho1, ho2, hfail,
                run_multiple_calcjobs]
      | uploading =>
          simp [run_calcjob, run_calcjob_loop, run_step, act, hp, ho1, ho2, hfail,
                run_multiple_calcjobs]
      | submitting =>
          simp [run_calcjob, run_calcjob_loop, run_step, act, hp, ho2, hfail,
                run_multiple_calcjobs]
      | running =>
          simp [run_calcjob, run_calcjob_loop, run_step, act, hp, hfail, run_multiple_calcjobs]
      | retrieving => rw [hp] at hrank; simp [Step.rank] at hrank
      | finalised => exact absurd hp hp5
  | retrieving =>
      obtain ⟨eff1, ho1⟩ := hbefore Step.uploading (by simp [Step.rank])
      obtain ⟨eff2, ho2⟩ := hbefore Step.submitting (by simp [Step.rank])
      obtain ⟨eff3, ho3⟩ := hbefore Step.running (by simp [Step.rank])
      cases hp : p.step with
      | created =>
          simp [run_calcjob, run_calcjob_loop, run_step, act, hp, ho1, ho2, ho3, hfail,
                run_multiple_calcjobs]
      | uploading =>
          simp [run_calcjob, run_calcjob_loop, run_step, act, hp, ho1, ho2, ho3, hfail,
                run_multiple_calcjobs]
      | submitting =>
          simp [run_calcjob, run_calcjob_loop, run_step, act, hp, ho2, ho3, hfail,
                run_multiple_calcjobs]
      | running =>
          simp [run_calcjob, run_calcjob_loop, run_step, act, hp, ho3, hfail,
                run_multiple_calcjobs]
      | retrieving =>
          simp [run_calcjob, run_calcjob_loop, run_step, act, hp, hfail, run_multiple_calcjobs]
      | finalised => exact absurd hp hp5

/-- Witness for C1: a fresh process whose polling step times out ends
excepted at step running with the timeout message recorded and persisted
last. -/
theorem c1_engine_exception_capture_witness :
    (run_calcjob oracleFailRunning pCreated).1.step = Step.running ∧
    (run_calcjob oracleFailRunning pCreated).1.state = PState.excepted ∧
    (run_calcjob oracleFailRunning pCreated).1.exception =
      some ("RuntimeError" ++ ": " ++ "timeout waiting for calcjob to finish") ∧
    (run_calcjob oracleFailRunning pCreated).2.getLast? =
      some (run_calcjob oracleFailRunning pCreated).1 ∧
    (∀ jobs : List (Oracle × Process),
       run_multiple_calcjobs jobs = jobs.map (fun j => run_calcjob j.1 j.2)) :=
  c1_engine_exception_capture oracleFailRunning pCreated Step.running
    ⟨"RuntimeError", "timeout waiting for calcjob to finish"⟩
    (by decide) (by decide) (by decide) (by decide) (by rfl)
    (by
      intro t ht
      refine ⟨⟨none, none⟩, ?_⟩
      cases t <;> simp_all [oracleFailRunning, Step.rank])

end Fireflow
